import Mathlib

/-!
Shallow embedding of the OS_Simulation program (src/main.cpp): a CPU
scheduler (Round-Robin and non-preemptive SJF) coupled with a memory
manager (FIFO and LRU page replacement).  The `unordered_map<int,PCB>`
process table is modelled as an association list of key/value pairs in
insertion order; C++ `int` / `long long` values are modelled as `Int`.
-/

namespace OSim

inductive Estado where
  | NEW
  | READY
  | RUNNING
  | BLOCKED
  | TERMINATED
deriving DecidableEq

inductive CPUPolicy where
  | RR
  | SJF_NONPREEMPTIVE
deriving DecidableEq

inductive ReplPolicy where
  | FIFO
  | LRU
deriving DecidableEq

/-- Process control block, following struct PCB in src/main.cpp. -/
structure PCB where
  pid : Int
  estado : Estado
  rafaga_restante : Int
  rafaga_total : Int
  llegada_tick : Int
  inicio_tick : Int
  fin_tick : Int
  espera_acumulada : Int
  npages : Int
  trace : List Int
  trace_pos : Int
  page_faults : Int
deriving DecidableEq

/-- The PCB constructor PCB(pid, burst, now, pages) from src/main.cpp. -/
def PCB.build (pid burst now pages : Int) : PCB :=
  { pid := pid, estado := Estado.NEW, rafaga_restante := burst,
    rafaga_total := burst, llegada_tick := now, inicio_tick := -1,
    fin_tick := -1, espera_acumulada := 0, npages := pages, trace := [],
    trace_pos := 0, page_faults := 0 }

/-- Physical frame, following struct Frame in src/main.cpp. -/
structure Frame where
  fid : Int
  pid : Int
  page : Int
  loaded_at_tick : Int
  last_access_tick : Int
deriving DecidableEq

/-- The Frame constructor Frame(id) from src/main.cpp. -/
def Frame.build (i : Int) : Frame :=
  { fid := i, pid := -1, page := -1, loaded_at_tick := -1, last_access_tick := -1 }

/-- Lookup in the association list modelling unordered_map<int,PCB>. -/
def lookupP : List (Int × PCB) → Int → Option PCB
  | [], _ => none
  | kv :: rest, k => if kv.1 = k then some kv.2 else lookupP rest k

/-- Update the value stored at a key (C++ mutation through procs[pid]). -/
def updProc : List (Int × PCB) → Int → (PCB → PCB) → List (Int × PCB)
  | [], _, _ => []
  | kv :: rest, k, f =>
      (if kv.1 = k then (kv.1, f kv.2) else kv) :: updProc rest k f

/-- Apply a function to every stored PCB (a C++ range-for mutating pass). -/
def mapVals (g : PCB → PCB) (procs : List (Int × PCB)) : List (Int × PCB) :=
  procs.map (fun kv => (kv.1, g kv.2))

/-- unordered_map::operator[] default-inserts PCB() when the key is absent. -/
def ensureP (procs : List (Int × PCB)) (k : Int) : List (Int × PCB) :=
  match lookupP procs k with
  | some _ => procs
  | none => procs ++ [(k, PCB.build 0 0 0 4)]

/-- The estado of the process stored at a key, when present. -/
def estadoOf (procs : List (Int × PCB)) (k : Int) : Option Estado :=
  (lookupP procs k).map (fun p => p.estado)

/-- erase(remove(begin, end, v), end): drop every occurrence of v. -/
def eraseAllInt : List Int → Int → List Int
  | [], _ => []
  | x :: xs, v => if x = v then eraseAllInt xs v else x :: eraseAllInt xs v

/-- erase(find(begin, end, v)): drop the first occurrence of v, if any. -/
def eraseFirstInt : List Int → Int → List Int
  | [], _ => []
  | x :: xs, v => if x = v then xs else x :: eraseFirstInt xs v

/-- INT_MAX, the initial best-burst value of the SJF scan. -/
def INT_MAX : Int := 2147483647

/-- LLONG_MAX, the initial minimum of the FIFO-fallback and LRU scans. -/
def LLONG_MAX : Int := 9223372036854775807

/-- Scheduler state, following class Scheduler in src/main.cpp. -/
structure Scheduler where
  policy : CPUPolicy
  quantum : Int
  current_tick : Int
  next_pid : Int
  procs : List (Int × PCB)
  ready_q : List Int
  running_pid : Option Int
  rr_slice_used : Int
deriving DecidableEq

/-- Scheduler(p, q) constructor: empty table, tick 0, next pid 1. -/
def Scheduler.build (p : CPUPolicy) (q : Int) : Scheduler :=
  { policy := p, quantum := q, current_tick := 0, next_pid := 1,
    procs := [], ready_q := [], running_pid := none, rr_slice_used := 0 }

/-- The PCB put into the table by Scheduler::create_process: built by
the PCB constructor, given the trace if non-empty, then set READY. -/
def createdPCB (s : Scheduler) (burst npages : Int) (trace : List Int) : PCB :=
  let pcb0 := PCB.build s.next_pid burst s.current_tick npages
  let pcb1 := if trace = [] then pcb0 else { pcb0 with trace := trace }
  { pcb1 with estado := Estado.READY }

/-- Scheduler::create_process. -/
def Scheduler.create_process (s : Scheduler) (burst npages : Int)
    (trace : List Int) : Int × Scheduler :=
  let pid := s.next_pid
  let pcb := createdPCB s burst npages trace
  (pid,
    { s with next_pid := s.next_pid + 1,
             procs := updProc (ensureP s.procs pid) pid (fun _ => pcb),
             ready_q := s.ready_q ++ [pid] })

/-- Scheduler::make_ready. -/
def Scheduler.make_ready (s : Scheduler) (pid : Int) : Scheduler :=
  match lookupP s.procs pid with
  | none => s
  | some _ =>
      { s with
        procs := updProc s.procs pid (fun p =>
          if p.estado = Estado.NEW then { p with estado := Estado.READY } else p),
        ready_q := if pid ∈ s.ready_q then s.ready_q else s.ready_q ++ [pid] }

/-- The driver's "new" command: create_process followed by make_ready
on the fresh pid (src/main.cpp, main loop). -/
def Scheduler.newCmd (s : Scheduler) (burst npages : Int)
    (trace : List Int) : Int × Scheduler :=
  let r := s.create_process burst npages trace
  (r.1, r.2.make_ready r.1)

/-- Mutation applied on termination and on kill: force TERMINATED and
stamp fin_tick. -/
def toTerminated (tk : Int) (p : PCB) : PCB :=
  { p with estado := Estado.TERMINATED, fin_tick := tk }

/-- Mutation applied on dispatch: estado RUNNING, stamp inicio_tick if
still unset. -/
def toRunning (tk : Int) (p : PCB) : PCB :=
  { p with estado := Estado.RUNNING,
           inicio_tick := if p.inicio_tick = -1 then tk else p.inicio_tick }

/-- Charging one CPU unit: rafaga_restante--. -/
def decBurst (p : PCB) : PCB :=
  { p with rafaga_restante := p.rafaga_restante - 1 }

/-- Mutation applied on RR preemption: back to READY. -/
def toReadyE (p : PCB) : PCB :=
  { p with estado := Estado.READY }

/-- Scheduler::kill_process.  The Bool models the "pid not found" report. -/
def Scheduler.kill_process (s : Scheduler) (pid : Int) : Bool × Scheduler :=
  match lookupP s.procs pid with
  | none => (false, s)
  | some _ =>
      let procs := updProc s.procs pid (toTerminated s.current_tick)
      let rq := eraseAllInt s.ready_q pid
      if s.running_pid = some pid then
        (true, { s with procs := procs, ready_q := rq,
                        running_pid := none, rr_slice_used := 0 })
      else
        (true, { s with procs := procs, ready_q := rq })

/-- Scheduler::set_policy. -/
def Scheduler.set_policy (s : Scheduler) (p : CPUPolicy) (q : Int) : Scheduler :=
  { s with policy := p, quantum := q, running_pid := none, rr_slice_used := 0 }

/-- One step of the SJF selection loop over the process table. -/
def sjf_step (acc : Int × Int) (kv : Int × PCB) : Int × Int :=
  if kv.2.estado = Estado.READY ∧ kv.2.rafaga_restante < acc.2 then
    (kv.2.pid, kv.2.rafaga_restante)
  else acc

/-- The SJF scan of Scheduler::schedule_next: best pid and best burst,
starting from (-1, INT_MAX). -/
def sjf_best (procs : List (Int × PCB)) : Int × Int :=
  procs.foldl sjf_step (-1, INT_MAX)

/-- Scheduler::schedule_next. -/
def Scheduler.schedule_next (s : Scheduler) : Option Int × Scheduler :=
  match s.policy with
  | CPUPolicy.RR =>
      match s.running_pid, s.ready_q with
      | none, pid :: rest => (some pid, { s with ready_q := rest })
      | _, _ => (none, s)
  | CPUPolicy.SJF_NONPREEMPTIVE =>
      let best := (sjf_best s.procs).1
      if best ≠ -1 then
        (some best, { s with ready_q := eraseAllInt s.ready_q best })
      else (none, s)

/-- First part of Scheduler::tick: if nothing runs, dispatch via the
active policy, set estado RUNNING, stamp inicio_tick, reset the slice. -/
def Scheduler.dispatchStage (s : Scheduler) : Scheduler :=
  match s.running_pid with
  | some _ => s
  | none =>
      let r := s.schedule_next
      match r.1 with
      | none => r.2
      | some pid =>
          { r.2 with
            running_pid := some pid,
            procs := updProc (ensureP r.2.procs pid) pid
              (toRunning r.2.current_tick),
            rr_slice_used := 0 }

/-- The wait-increment applied to each READY process. -/
def bumpVal (p : PCB) : PCB :=
  if p.estado = Estado.READY then
    { p with espera_acumulada := p.espera_acumulada + 1 }
  else p

/-- Second part of Scheduler::tick: espera_acumulada++ for READY processes. -/
def Scheduler.waitStage (s : Scheduler) : Scheduler :=
  { s with procs := mapVals bumpVal s.procs }

/-- Third part of Scheduler::tick: charge one unit to the running process,
terminate it, or (under RR) preempt it when the slice reaches the quantum. -/
def Scheduler.chargeStage (s : Scheduler) : Option Int × Scheduler :=
  match s.running_pid with
  | none => (none, s)
  | some pid =>
      let procs1 := updProc (ensureP s.procs pid) pid decBurst
      let p := (lookupP procs1 pid).getD (PCB.build 0 0 0 4)
      if p.rafaga_restante ≤ 0 then
        (some pid,
          { s with
            procs := updProc procs1 pid (toTerminated (s.current_tick + 1)),
            running_pid := none, rr_slice_used := 0 })
      else if s.policy = CPUPolicy.RR then
        (if s.rr_slice_used + 1 ≥ s.quantum then
          (some pid,
            { s with
              procs := updProc procs1 pid toReadyE,
              ready_q := s.ready_q ++ [pid],
              running_pid := none, rr_slice_used := 0 })
        else
          (some pid, { s with procs := procs1,
                              rr_slice_used := s.rr_slice_used + 1 }))
      else (some pid, { s with procs := procs1 })

/-- Scheduler::tick: dispatch, wait increment, charge, advance the tick. -/
def Scheduler.tick (s : Scheduler) : Option Int × Scheduler :=
  let s2 := s.dispatchStage.waitStage
  let r := s2.chargeStage
  (r.1, { r.2 with current_tick := r.2.current_tick + 1 })

/-- Iterate Scheduler::tick, collecting the returned running pids. -/
def tickN : Nat → Scheduler → List (Option Int) × Scheduler
  | 0, s => ([], s)
  | Nat.succ n, s =>
      let r := s.tick
      let rest := tickN n r.2
      (r.1 :: rest.1, rest.2)

/-- Memory manager state, following class MemoryManager in src/main.cpp. -/
structure MemoryManager where
  frames : List Frame
  policy : ReplPolicy
  tick_counter : Int
  fifo_queue : List Int
  total_page_faults : Int
  total_replacements : Int
deriving DecidableEq

/-- MemoryManager(nframes, p) constructor. -/
def MemoryManager.build (nframes : Nat) (p : ReplPolicy) : MemoryManager :=
  { frames := (List.range nframes).map (fun (i : Nat) => Frame.build (i : Int)),
    policy := p, tick_counter := 0, fifo_queue := [],
    total_page_faults := 0, total_replacements := 0 }

/-- MemoryManager::advance_tick. -/
def MemoryManager.advance_tick (m : MemoryManager) : MemoryManager :=
  { m with tick_counter := m.tick_counter + 1 }

/-- MemoryManager::set_policy: rebuild the FIFO queue from occupied frames. -/
def MemoryManager.set_policy (m : MemoryManager) (p : ReplPolicy) : MemoryManager :=
  { m with policy := p,
           fifo_queue := (m.frames.filter (fun f => f.pid ≠ -1)).map Frame.fid }

/-- The loop of MemoryManager::is_resident_and_touch: stamp the first
frame holding (pid, page), report whether one was found. -/
def touchFirst : List Frame → Int → Int → Int → Bool × List Frame
  | [], _, _, _ => (false, [])
  | f :: fs, pid, page, tk =>
      if f.pid = pid ∧ f.page = page then
        (true, { f with last_access_tick := tk } :: fs)
      else
        let r := touchFirst fs pid page tk
        (r.1, f :: r.2)

/-- MemoryManager::is_resident_and_touch. -/
def MemoryManager.is_resident_and_touch (m : MemoryManager) (pid page : Int) :
    Bool × MemoryManager :=
  let r := touchFirst m.frames pid page m.tick_counter
  (r.1, { m with frames := r.2 })

/-- The free-frame loop of MemoryManager::load_page: install into the
first free frame, returning its id and the updated pool. -/
def installFree : List Frame → Int → Int → Int → Option (Int × List Frame)
  | [], _, _, _ => none
  | f :: fs, pid, page, tk =>
      if f.pid = -1 then
        some (f.fid, { f with pid := pid, page := page,
                              loaded_at_tick := tk, last_access_tick := tk } :: fs)
      else
        match installFree fs pid page tk with
        | none => none
        | some r => some (r.1, f :: r.2)

/-- A scan keeping the first frame that strictly lowers the running
minimum of a key, starting from (LLONG_MAX, 0); used by the FIFO
fallback (key loaded_at_tick) and by LRU (key last_access_tick). -/
def minFold (key : Frame → Int) (fs : List Frame) : Int × Int :=
  fs.foldl (fun acc f => if key f < acc.1 then (key f, f.fid) else acc)
    (LLONG_MAX, 0)

/-- MemoryManager::choose_victim (it pops the FIFO queue's head). -/
def MemoryManager.choose_victim (m : MemoryManager) : Int × MemoryManager :=
  match m.policy with
  | ReplPolicy.FIFO =>
      match m.fifo_queue with
      | [] => ((minFold (fun f => f.loaded_at_tick) m.frames).2, m)
      | fid :: rest => (fid, { m with fifo_queue := rest })
  | ReplPolicy.LRU => ((minFold (fun f => f.last_access_tick) m.frames).2, m)

/-- Write through vector index i (frames[victim_fid] in load_page). -/
def setFrameAt : List Frame → Nat → (Frame → Frame) → List Frame
  | [], _, _ => []
  | f :: fs, 0, g => g f :: fs
  | f :: fs, Nat.succ n, g => f :: setFrameAt fs n g

/-- frames[v] for an Int index, as used by load_page on the victim. -/
def setFrameIdx (fs : List Frame) (v : Int) (g : Frame → Frame) : List Frame :=
  if 0 ≤ v then setFrameAt fs v.toNat g else fs

/-- MemoryManager::load_page. -/
def MemoryManager.load_page (m : MemoryManager) (pid page : Int) :
    Int × MemoryManager :=
  let m0 := { m with total_page_faults := m.total_page_faults + 1 }
  match installFree m0.frames pid page m0.tick_counter with
  | some r =>
      let m1 := { m0 with frames := r.2 }
      if m1.policy = ReplPolicy.FIFO then
        (r.1, { m1 with fifo_queue := m1.fifo_queue ++ [r.1] })
      else (r.1, m1)
  | none =>
      let vc := m0.choose_victim
      let m1 := vc.2
      let frames2 := setFrameIdx m1.frames vc.1 (fun f =>
        { f with pid := pid, page := page, loaded_at_tick := m1.tick_counter,
                 last_access_tick := m1.tick_counter })
      let m2 := { m1 with frames := frames2,
                          total_replacements := m1.total_replacements + 1 }
      if m2.policy = ReplPolicy.FIFO then
        (vc.1, { m2 with fifo_queue := eraseFirstInt m2.fifo_queue vc.1 ++ [vc.1] })
      else (vc.1, m2)

/-- MemoryManager::access_page. -/
def MemoryManager.access_page (m : MemoryManager) (pid page : Int) :
    (Bool × Int) × MemoryManager :=
  let r := m.is_resident_and_touch pid page
  if r.1 then ((true, -1), r.2)
  else
    let l := m.load_page pid page
    ((false, l.1), l.2)

/-- The Tick Engine's page selection for a process with a non-empty
access trace (main loop of src/main.cpp, "tick" and "run" commands):
wrap the cursor, read the element, post-increment the cursor, and fold
out-of-range elements with C++ %, which is truncated remainder. -/
def select_page (p : PCB) : Int × PCB :=
  let pos := if p.trace_pos ≥ (p.trace.length : Int) then 0 else p.trace_pos
  let raw := p.trace.getD pos.toNat 0
  let page := if raw < 0 ∨ raw ≥ p.npages then raw.tmod p.npages else raw
  (page, { p with trace_pos := pos + 1 })

/-- Run a list of (pid, page) accesses, advancing the memory tick before
each one as the Tick Engine protocol requires; also count the hits. -/
def runAccesses : MemoryManager → List (Int × Int) → MemoryManager × Nat
  | m, [] => (m, 0)
  | m, a :: rest =>
      let m1 := m.advance_tick
      let r := m1.access_page a.1 a.2
      let rec1 := runAccesses r.2 rest
      (rec1.1, (if r.1.1 then 1 else 0) + rec1.2)

def C9s : Scheduler := ((Scheduler.build CPUPolicy.RR 2).newCmd 3 4 []).2

def C9p : PCB := (lookupP C9s.procs 1).getD (PCB.build 0 0 0 4)

def C2s : Scheduler := ((Scheduler.build CPUPolicy.RR 2).newCmd 5 4 [-1]).2

def C2p : PCB := (lookupP C2s.procs 1).getD (PCB.build 0 0 0 4)

def C2wp : PCB :=
  { pid := 1, estado := Estado.READY, rafaga_restante := 5, rafaga_total := 5,
    llegada_tick := 0, inicio_tick := -1, fin_tick := -1,
    espera_acumulada := 0, npages := 4, trace := [9], trace_pos := 0,
    page_faults := 0 }

def C8s : Scheduler := ((Scheduler.build CPUPolicy.RR 2).newCmd 3 4 []).2

def C8p : PCB := (lookupP C8s.dispatchStage.procs 1).getD (PCB.build 0 0 0 4)

def C7m : MemoryManager := MemoryManager.build 1 ReplPolicy.FIFO

/-- The frame occupied at step i of the FIFO fill scenario. -/
def occF (pid : Int) (ps : Nat → Int) (i : Nat) : Frame :=
  { fid := (i : Int), pid := pid, page := ps i,
    loaded_at_tick := (i : Int) + 1, last_access_tick := (i : Int) + 1 }

/-- k protocol cycles (advance_tick then access) of pages ps 0, ps 1, ...
against a fresh F-frame FIFO manager. -/
def fifoScenario (pid : Int) (ps : Nat → Int) (F : Nat) : Nat → MemoryManager
  | 0 => MemoryManager.build F ReplPolicy.FIFO
  | Nat.succ k =>
      (((fifoScenario pid ps F k).advance_tick).access_page pid (ps k)).2

/-- The fill-phase state of the FIFO scenario after k cycles: the first
k frames hold pages ps 0 .. ps (k-1), the rest are untouched free
frames, and the admission queue lists frames 0 .. k-1 in order. -/
def fifoInv (pid : Int) (ps : Nat → Int) (F k : Nat) : MemoryManager :=
  { frames := (List.range k).map (occF pid ps) ++
      (List.range' k (F - k)).map (fun (i : Nat) => Frame.build (i : Int)),
    policy := ReplPolicy.FIFO,
    tick_counter := (k : Int),
    fifo_queue := (List.range k).map (fun (i : Nat) => (i : Int)),
    total_page_faults := (k : Int),
    total_replacements := 0 }

def C5ps : Nat → Int := fun i => (i : Int)

/-- State of a fresh 2-frame LRU manager after the protocol cycles
accessing pages A, B, A. -/
def lruS3 (pid A B : Int) : MemoryManager :=
  (((((((MemoryManager.build 2 ReplPolicy.LRU).advance_tick).access_page
    pid A).2.advance_tick).access_page pid B).2.advance_tick).access_page
    pid A).2

/-- Shorthand frame constructor for concrete scenario states. -/
def mkFr (fid pid page l a : Int) : Frame :=
  { fid := fid, pid := pid, page := page, loaded_at_tick := l,
    last_access_tick := a }

/-- Shorthand manager constructor for concrete scenario states. -/
def mkMM (fr : List Frame) (p : ReplPolicy) (tk : Int) (q : List Int)
    (pf rp : Int) : MemoryManager :=
  { frames := fr, policy := p, tick_counter := tk, fifo_queue := q,
    total_page_faults := pf, total_replacements := rp }

def C3s : Scheduler := ((Scheduler.build CPUPolicy.RR 2).newCmd 3 4 []).2

def C3p : PCB := (lookupP C3s.procs 1).getD (PCB.build 0 0 0 4)

def C4sched : Scheduler :=
  { policy := CPUPolicy.SJF_NONPREEMPTIVE, quantum := 0, current_tick := 0,
    next_pid := 2,
    procs := [(1, { pid := 1, estado := Estado.READY,
                    rafaga_restante := 2147483647,
                    rafaga_total := 2147483647, llegada_tick := 0,
                    inicio_tick := -1, fin_tick := -1, espera_acumulada := 0,
                    npages := 4, trace := [], trace_pos := 0,
                    page_faults := 0 })],
    ready_q := [1], running_pid := none, rr_slice_used := 0 }

def C4w : Scheduler :=
  (((Scheduler.build CPUPolicy.SJF_NONPREEMPTIVE 0).newCmd 3 4 []).2.newCmd
    1 4 []).2

/-- The reachable-state invariant of the scheduler: distinct table keys,
each stored PCB carries its own key as pid with 1 <= pid < next_pid,
ready-queue members are READY, the running process is RUNNING and not
queued, the ready queue is duplicate-free, and next_pid >= 1. -/
@[reducible]
def InvS (s : Scheduler) : Prop :=
  (s.procs.map Prod.fst).Nodup ∧
  (∀ kv ∈ s.procs, kv.2.pid = kv.1 ∧ 1 ≤ kv.1 ∧ kv.1 < s.next_pid) ∧
  (∀ k ∈ s.ready_q, estadoOf s.procs k = some Estado.READY) ∧
  (∀ k ∈ s.running_pid.toList,
    estadoOf s.procs k = some Estado.RUNNING ∧ k ∉ s.ready_q) ∧
  s.ready_q.Nodup ∧
  1 ≤ s.next_pid

/-- A process entry the scheduler can no longer reach except through an
explicit kill of its pid: not in the running slot, not in the ready
queue, and not in READY state (so no dispatch can select it). -/
def Shelved (k : Int) (s : Scheduler) : Prop :=
  s.running_pid ≠ some k ∧ k ∉ s.ready_q ∧
  ∃ q, lookupP s.procs k = some q ∧ q.estado ≠ Estado.READY

/-- One scheduler console operation that is not a kill of pid p. -/
inductive StepNK (p : Int) : Scheduler → Scheduler → Prop where
  | new : ∀ (s : Scheduler) (b np : Int) (tr : List Int),
      StepNK p s (s.newCmd b np tr).2
  | kill : ∀ (s : Scheduler) (q : Int), q ≠ p →
      StepNK p s (s.kill_process q).2
  | policy : ∀ (s : Scheduler) (pol : CPUPolicy) (qq : Int),
      StepNK p s (s.set_policy pol qq)
  | tick : ∀ (s : Scheduler), StepNK p s (s.tick).2

/-- Any finite sequence of console operations none of which kills pid p. -/
inductive StepsNK (p : Int) : Scheduler → Scheduler → Prop where
  | refl : ∀ (s : Scheduler), StepsNK p s s
  | tail : ∀ (s t u : Scheduler), StepsNK p s t → StepNK p t u →
      StepsNK p s u

/-- Scheduler state after "new 3 4" and one tick under RR quantum 2:
pid 1 occupies the CPU. -/
def C10s : Scheduler :=
  (((Scheduler.build CPUPolicy.RR 2).newCmd 3 4 []).2.tick).2

/-- Scheduler state after "new 1 4" under RR quantum 2 and two ticks:
pid 1 terminated with fin_tick 1 at tick 1, and the clock is now 2. -/
def C1s0 : Scheduler := ((Scheduler.build CPUPolicy.RR 2).newCmd 1 4 []).2

def C1s1 : Scheduler := ((C1s0.tick).2.tick).2

def C1wq : PCB := (lookupP C1s0.procs 1).getD (PCB.build 0 0 0 4)

theorem lookupP_updProc (procs : List (Int × PCB)) (k : Int) (f : PCB → PCB)
    (j : Int) :
    lookupP (updProc procs k f) j =
      if j = k then (lookupP procs k).map f else lookupP procs j := by
  induction procs with
  | nil => simp [updProc, lookupP]
  | cons kv rest ih =>
      by_cases h1 : kv.1 = k
      · by_cases h2 : kv.1 = j
        · have hjk : j = k := h2 ▸ h1
          simp [updProc, lookupP, h1, h2, hjk]
        · have hjk : j ≠ k := fun h => h2 (h1.trans h.symm)
          simp [updProc, lookupP, h1, h2, hjk, hjk.symm, ih]
      · by_cases h2 : kv.1 = j
        · have hjk : j ≠ k := fun h => h1 (h2.trans h)
          simp [updProc, lookupP, h1, h2, hjk]
        · simp [updProc, lookupP, h1, h2, ih]

theorem lookupP_mapVals (g : PCB → PCB) (procs : List (Int × PCB)) (j : Int) :
    lookupP (mapVals g procs) j = (lookupP procs j).map g := by
  induction procs with
  | nil => simp [mapVals, lookupP]
  | cons kv rest ih =>
      simp only [mapVals, List.map, lookupP]
      by_cases h : kv.1 = j
      · simp [h]
      · simp only [if_neg h]
        exact ih

theorem updProc_keys (procs : List (Int × PCB)) (k : Int) (f : PCB → PCB) :
    (updProc procs k f).map Prod.fst = procs.map Prod.fst := by
  induction procs with
  | nil => rfl
  | cons kv rest ih =>
      simp only [updProc, List.map]
      by_cases h : kv.1 = k <;> simp [h, ih]

theorem mapVals_keys (g : PCB → PCB) (procs : List (Int × PCB)) :
    (mapVals g procs).map Prod.fst = procs.map Prod.fst := by
  induction procs with
  | nil => rfl
  | cons kv rest ih => simp [mapVals] at ih ⊢

theorem ensureP_of_some {procs : List (Int × PCB)} {k : Int} {v : PCB}
    (h : lookupP procs k = some v) : ensureP procs k = procs := by
  simp [ensureP, h]

theorem lookupP_append_some {l1 : List (Int × PCB)} (l2 : List (Int × PCB))
    {j : Int} {v : PCB} (h : lookupP l1 j = some v) :
    lookupP (l1 ++ l2) j = some v := by
  induction l1 with
  | nil => simp [lookupP] at h
  | cons kv rest ih =>
      simp only [lookupP] at h ⊢
      by_cases hk : kv.1 = j
      · simpa [hk] using h
      · rw [if_neg hk] at h ⊢
        exact ih h

theorem lookupP_append_none {l1 : List (Int × PCB)} (l2 : List (Int × PCB))
    {j : Int} (h : lookupP l1 j = none) :
    lookupP (l1 ++ l2) j = lookupP l2 j := by
  induction l1 with
  | nil => simp [lookupP]
  | cons kv rest ih =>
      simp only [lookupP] at h ⊢
      by_cases hk : kv.1 = j
      · simp [hk] at h
      · rw [if_neg hk] at h ⊢
        exact ih h

theorem mem_keys_of_lookupP {procs : List (Int × PCB)} {j : Int} {v : PCB}
    (h : lookupP procs j = some v) : j ∈ procs.map Prod.fst := by
  induction procs with
  | nil => simp [lookupP] at h
  | cons kv rest ih =>
      simp only [lookupP] at h
      by_cases hk : kv.1 = j
      · simp [hk]
      · rw [if_neg hk] at h
        simp [ih h]

theorem lookupP_none_of_not_mem {procs : List (Int × PCB)} {j : Int}
    (h : j ∉ procs.map Prod.fst) : lookupP procs j = none := by
  induction procs with
  | nil => rfl
  | cons kv rest ih =>
      simp only [List.map, List.mem_cons, not_or] at h
      simp only [lookupP]
      rw [if_neg (fun he => h.1 he.symm)]
      exact ih h.2

theorem lookupP_of_mem_nodup {procs : List (Int × PCB)} {kv : Int × PCB}
    (hnd : (procs.map Prod.fst).Nodup) (hm : kv ∈ procs) :
    lookupP procs kv.1 = some kv.2 := by
  induction procs with
  | nil => simp at hm
  | cons kv0 rest ih =>
      simp only [List.map, List.nodup_cons] at hnd
      rcases List.mem_cons.mp hm with h | h
      · subst h
        simp [lookupP]
      · have hne : kv0.1 ≠ kv.1 := by
          intro he
          exact hnd.1 (he ▸ (List.mem_map.mpr ⟨kv, h, rfl⟩))
        simp only [lookupP, if_neg hne]
        exact ih hnd.2 h

theorem mem_eraseAllInt {l : List Int} {v j : Int} :
    j ∈ eraseAllInt l v ↔ j ∈ l ∧ j ≠ v := by
  induction l with
  | nil => simp [eraseAllInt]
  | cons x xs ih =>
      by_cases h : x = v
      · rw [eraseAllInt, if_pos h, ih]
        subst h
        constructor
        · rintro ⟨h1, h2⟩
          exact ⟨List.mem_cons_of_mem _ h1, h2⟩
        · rintro ⟨h1, h2⟩
          rcases List.mem_cons.mp h1 with h3 | h3
          · exact absurd h3 h2
          · exact ⟨h3, h2⟩
      · rw [eraseAllInt, if_neg h]
        constructor
        · intro h1
          rcases List.mem_cons.mp h1 with h3 | h3
          · subst h3
            exact ⟨List.mem_cons_self _ _, fun he => h he⟩
          · obtain ⟨h4, h5⟩ := ih.mp h3
            exact ⟨List.mem_cons_of_mem _ h4, h5⟩
        · rintro ⟨h1, h2⟩
          rcases List.mem_cons.mp h1 with h3 | h3
          · exact h3 ▸ List.mem_cons_self _ _
          · exact List.mem_cons_of_mem _ (ih.mpr ⟨h3, h2⟩)

theorem eraseAllInt_nodup {l : List Int} (v : Int) (h : l.Nodup) :
    (eraseAllInt l v).Nodup := by
  induction l with
  | nil => simp [eraseAllInt]
  | cons x xs ih =>
      simp only [List.nodup_cons] at h
      by_cases hx : x = v
      · simp only [eraseAllInt, if_pos hx]
        exact ih h.2
      · simp only [eraseAllInt, if_neg hx, List.nodup_cons]
        exact ⟨fun hm => h.1 (mem_eraseAllInt.mp hm).1, ih h.2⟩

theorem eraseAllInt_of_not_mem {l : List Int} {v : Int} (h : v ∉ l) :
    eraseAllInt l v = l := by
  induction l with
  | nil => rfl
  | cons x xs ih =>
      simp only [List.mem_cons, not_or] at h
      obtain ⟨h1, h2⟩ := h
      rw [eraseAllInt, if_neg (fun he : x = v => h1 he.symm), ih h2]

theorem eraseFirstInt_of_not_mem {l : List Int} {v : Int} (h : v ∉ l) :
    eraseFirstInt l v = l := by
  induction l with
  | nil => rfl
  | cons x xs ih =>
      simp only [List.mem_cons, not_or] at h
      obtain ⟨h1, h2⟩ := h
      rw [eraseFirstInt, if_neg (fun he : x = v => h1 he.symm), ih h2]

/-- Claim C9: kill with an unknown pid reports not-found and leaves the
whole scheduler state unchanged; with a known pid it forces TERMINATED,
stamps fin_tick at the current tick, removes the pid from the ready
queue, and frees the CPU (resetting the slice counter) if that pid was
running, leaving every other field and record untouched. -/
theorem C9_kill (s : Scheduler) (pid : Int) :
    (lookupP s.procs pid = none → s.kill_process pid = (false, s)) ∧
    (∀ pcb, lookupP s.procs pid = some pcb →
      (s.kill_process pid).1 = true ∧
      lookupP (s.kill_process pid).2.procs pid =
        some { pcb with estado := Estado.TERMINATED,
                        fin_tick := s.current_tick } ∧
      (∀ j, j ≠ pid →
        lookupP (s.kill_process pid).2.procs j = lookupP s.procs j) ∧
      (s.kill_process pid).2.ready_q = eraseAllInt s.ready_q pid ∧
      pid ∉ (s.kill_process pid).2.ready_q ∧
      (s.kill_process pid).2.running_pid =
        (if s.running_pid = some pid then none else s.running_pid) ∧
      (s.kill_process pid).2.rr_slice_used =
        (if s.running_pid = some pid then 0 else s.rr_slice_used) ∧
      (s.kill_process pid).2.current_tick = s.current_tick ∧
      (s.kill_process pid).2.next_pid = s.next_pid ∧
      (s.kill_process pid).2.policy = s.policy ∧
      (s.kill_process pid).2.quantum = s.quantum) := by
  constructor
  · intro h
    simp [Scheduler.kill_process, h]
  · intro pcb h
    by_cases hr : s.running_pid = some pid <;>
      simp [Scheduler.kill_process, toTerminated, h, hr, lookupP_updProc,
        mem_eraseAllInt] <;>
      intro j hj1 hj2 <;> exact absurd hj2 hj1

/-- Witness for C9 at a concrete state holding one process. -/
theorem C9_witness :
    (C9s.kill_process 1).1 = true ∧
    lookupP (C9s.kill_process 1).2.procs 1 =
      some { C9p with estado := Estado.TERMINATED,
                      fin_tick := C9s.current_tick } :=
  ⟨((C9_kill C9s 1).2 C9p (by decide)).1,
   ((C9_kill C9s 1).2 C9p (by decide)).2.1⟩

/-- Claim C2 (counterexample): a creatable process with access-trace
[-1] and pageCount 4 runs, and the Tick Engine's page computation
yields page -1 (C++ % is truncated remainder), which does NOT lie in
[0, pageCount); so the claimed "the resulting page always lies in
[0, pageCount)" is false. -/
theorem C2_counterexample :
    lookupP C2s.procs 1 = some C2p ∧ C2p.trace = [-1] ∧ C2p.npages = 4 ∧
    (C2s.tick).1 = some 1 ∧
    (select_page C2p).1 = -1 ∧
    ¬(0 ≤ (select_page C2p).1 ∧ (select_page C2p).1 < C2p.npages) := by
  decide

/-- Claim C2 (amended): for a process with a non-empty trace and a
nonnegative cursor, the page passed to MemoryManager.access is the next
trace element, the cursor wrapping to 0 when the trace is exhausted;
an element outside [0, pageCount) is folded with C++ truncated
remainder, so a NONNEGATIVE element always yields a page in
[0, pageCount), while a negative element yields a nonpositive page in
(-pageCount, 0], which may lie outside [0, pageCount). -/
theorem C2_amended (p : PCB) (pos raw : Int)
    (_hne : p.trace ≠ []) (_hpos0 : 0 ≤ p.trace_pos) (hnp : 0 < p.npages)
    (hpos : pos = if p.trace_pos ≥ (p.trace.length : Int) then 0 else p.trace_pos)
    (hraw : raw = p.trace.getD pos.toNat 0) :
    (select_page p).2 = { p with trace_pos := pos + 1 } ∧
    (select_page p).1 =
      (if raw < 0 ∨ raw ≥ p.npages then raw.tmod p.npages else raw) ∧
    (0 ≤ raw → 0 ≤ (select_page p).1 ∧ (select_page p).1 < p.npages) ∧
    (raw < 0 → (select_page p).1 ≤ 0 ∧ -p.npages < (select_page p).1) := by
  subst hpos
  subst hraw
  refine ⟨rfl, rfl, ?_, ?_⟩
  · intro h0
    set raw := p.trace.getD
      (if p.trace_pos ≥ (p.trace.length : Int) then 0 else p.trace_pos).toNat 0
      with hraw
    show (0 ≤ if raw < 0 ∨ raw ≥ p.npages then raw.tmod p.npages else raw) ∧
      (if raw < 0 ∨ raw ≥ p.npages then raw.tmod p.npages else raw) < p.npages
    by_cases hc : raw < 0 ∨ raw ≥ p.npages
    · rw [if_pos hc]
      exact ⟨Int.tmod_nonneg p.npages h0, Int.tmod_lt_of_pos raw hnp⟩
    · rw [if_neg hc]
      push_neg at hc
      exact ⟨h0, hc.2⟩
  · intro h0
    set raw := p.trace.getD
      (if p.trace_pos ≥ (p.trace.length : Int) then 0 else p.trace_pos).toNat 0
      with hraw
    show (if raw < 0 ∨ raw ≥ p.npages then raw.tmod p.npages else raw) ≤ 0 ∧
      -p.npages < (if raw < 0 ∨ raw ≥ p.npages then raw.tmod p.npages else raw)
    rw [if_pos (Or.inl h0)]
    have hneg : Int.tmod raw p.npages = -(Int.tmod (-raw) p.npages) := by
      rw [Int.tmod_def, Int.tmod_def, Int.neg_tdiv]
      ring
    have h2 : 0 ≤ Int.tmod (-raw) p.npages := Int.tmod_nonneg p.npages (by omega)
    have h3 : Int.tmod (-raw) p.npages < p.npages :=
      Int.tmod_lt_of_pos (-raw) hnp
    omega

/-- Witness for the amended C2 at a concrete process with trace [9]. -/
theorem C2_witness :
    0 ≤ (select_page C2wp).1 ∧ (select_page C2wp).1 < C2wp.npages :=
  (C2_amended C2wp 0 9 (by decide) (by decide) (by decide) (by decide)
    (by decide)).2.2.1 (by decide)

theorem lookupP_nil (k : Int) : lookupP [] k = none := rfl

theorem lookupP_cons (kv : Int × PCB) (rest : List (Int × PCB)) (k : Int) :
    lookupP (kv :: rest) k = if kv.1 = k then some kv.2 else lookupP rest k :=
  rfl

theorem lookupP_ensureP {procs : List (Int × PCB)} (pid : Int) {k : Int}
    {v : PCB} (h : lookupP procs k = some v) :
    lookupP (ensureP procs pid) k = some v := by
  unfold ensureP
  cases hl : lookupP procs pid with
  | some w => exact h
  | none => exact lookupP_append_some _ h

theorem lookupP_ensureP_ne {procs : List (Int × PCB)} {pid k : Int}
    (hk : k ≠ pid) :
    lookupP (ensureP procs pid) k = lookupP procs k := by
  unfold ensureP
  cases hl : lookupP procs pid with
  | some w => rfl
  | none =>
      cases h2 : lookupP procs k with
      | some v => exact lookupP_append_some _ h2
      | none =>
          rw [lookupP_append_none _ h2, lookupP_cons,
            if_neg (fun he : pid = k => hk he.symm), lookupP_nil]

theorem lookupP_ensureP_self (procs : List (Int × PCB)) (pid : Int) :
    ∃ v, lookupP (ensureP procs pid) pid = some v := by
  unfold ensureP
  cases hl : lookupP procs pid with
  | some w => exact ⟨w, hl⟩
  | none =>
      refine ⟨PCB.build 0 0 0 4, ?_⟩
      rw [lookupP_append_none _ hl, lookupP_cons, if_pos rfl]

theorem schedule_next_fields (s : Scheduler) :
    (s.schedule_next).2.procs = s.procs ∧
    (s.schedule_next).2.current_tick = s.current_tick ∧
    (s.schedule_next).2.policy = s.policy ∧
    (s.schedule_next).2.quantum = s.quantum ∧
    (s.schedule_next).2.running_pid = s.running_pid ∧
    (s.schedule_next).2.rr_slice_used = s.rr_slice_used ∧
    (s.schedule_next).2.next_pid = s.next_pid := by
  unfold Scheduler.schedule_next
  cases hp : s.policy
  · cases hr : s.running_pid <;> cases hq : s.ready_q <;> simp [hp, hr, hq]
  · by_cases hb : (sjf_best s.procs).1 ≠ -1 <;> simp [hp, hb]

theorem dispatchStage_fields (s : Scheduler) :
    s.dispatchStage.current_tick = s.current_tick ∧
    s.dispatchStage.policy = s.policy ∧
    s.dispatchStage.quantum = s.quantum ∧
    s.dispatchStage.next_pid = s.next_pid := by
  unfold Scheduler.dispatchStage
  obtain ⟨h1, h2, h3, h4, h5, h6, h7⟩ := schedule_next_fields s
  cases hr : s.running_pid with
  | some pid => simp [hr]
  | none =>
      cases hn : (s.schedule_next).1 with
      | none => simp [hr, hn, h2, h3, h4, h7]
      | some pid => simp [hr, hn, h2, h3, h4, h7]

theorem dispatchStage_procs_cases (s : Scheduler) :
    s.dispatchStage.procs = s.procs ∨
    ∃ pid, s.dispatchStage.running_pid = some pid ∧
      s.dispatchStage.procs =
        updProc (ensureP s.procs pid) pid (toRunning s.current_tick) := by
  unfold Scheduler.dispatchStage
  obtain ⟨h1, h2, h3, h4, h5, h6, h7⟩ := schedule_next_fields s
  cases hr : s.running_pid with
  | some pid => simp [hr]
  | none =>
      cases hn : (s.schedule_next).1 with
      | none =>
          refine Or.inl ?_
          simp [hr, hn, h1]
      | some pid =>
          refine Or.inr ⟨pid, ?_, ?_⟩ <;> simp [hr, hn, h1, h2]

theorem waitStage_lookup (s : Scheduler) (k : Int) :
    lookupP s.waitStage.procs k = (lookupP s.procs k).map bumpVal :=
  lookupP_mapVals bumpVal s.procs k

theorem chargeStage_espera (s : Scheduler) (k : Int) (q : PCB)
    (h : lookupP s.procs k = some q) :
    ∃ q2, lookupP (s.chargeStage).2.procs k = some q2 ∧
      q2.espera_acumulada = q.espera_acumulada ∧
      q2.pid = q.pid ∧ q2.llegada_tick = q.llegada_tick ∧
      q2.npages = q.npages ∧ q2.trace = q.trace ∧
      q2.trace_pos = q.trace_pos ∧ q2.page_faults = q.page_faults ∧
      q2.rafaga_total = q.rafaga_total := by
  unfold Scheduler.chargeStage
  cases hr : s.running_pid with
  | none => exact ⟨q, h, rfl, rfl, rfl, rfl, rfl, rfl, rfl, rfl⟩
  | some pid =>
      dsimp only
      by_cases hk : k = pid
      · subst hk
        have h1 : lookupP (ensureP s.procs k) k = some q := lookupP_ensureP k h
        have h2 : lookupP (updProc (ensureP s.procs k) k decBurst) k =
            some (decBurst q) := by
          rw [lookupP_updProc, if_pos rfl, h1]
          rfl
        rw [h2]
        by_cases hb : (decBurst q).rafaga_restante ≤ 0
        · refine ⟨toTerminated (s.current_tick + 1) (decBurst q), ?_⟩
          simp only [Option.getD_some, if_pos hb]
          rw [lookupP_updProc, if_pos rfl, h2]
          exact ⟨rfl, rfl, rfl, rfl, rfl, rfl, rfl, rfl, rfl⟩
        · simp only [Option.getD_some, if_neg hb]
          by_cases hp : s.policy = CPUPolicy.RR
          · rw [if_pos hp]
            by_cases hs : s.rr_slice_used + 1 ≥ s.quantum
            · refine ⟨toReadyE (decBurst q), ?_⟩
              simp only [if_pos hs]
              rw [lookupP_updProc, if_pos rfl, h2]
              exact ⟨rfl, rfl, rfl, rfl, rfl, rfl, rfl, rfl, rfl⟩
            · refine ⟨decBurst q, ?_⟩
              simp only [if_neg hs]
              exact ⟨h2, rfl, rfl, rfl, rfl, rfl, rfl, rfl, rfl⟩
          · rw [if_neg hp]
            exact ⟨decBurst q, h2, rfl, rfl, rfl, rfl, rfl, rfl, rfl, rfl⟩
      · have h1 : lookupP (ensureP s.procs pid) k = lookupP s.procs k :=
          lookupP_ensureP_ne hk
        have h2 : lookupP (updProc (ensureP s.procs pid) pid decBurst) k =
            some q := by
          rw [lookupP_updProc, if_neg hk, h1, h]
        cases hl : lookupP (updProc (ensureP s.procs pid) pid decBurst) pid with
        | none =>
            exfalso
            obtain ⟨v, hv⟩ := lookupP_ensureP_self s.procs pid
            rw [lookupP_updProc, if_pos rfl, hv] at hl
            simp at hl
        | some w =>
            by_cases hb : w.rafaga_restante ≤ 0
            · refine ⟨q, ?_⟩
              simp only [Option.getD_some, if_pos hb]
              rw [lookupP_updProc, if_neg hk, h2]
              simp
            · simp only [Option.getD_some, if_neg hb]
              by_cases hp : s.policy = CPUPolicy.RR
              · rw [if_pos hp]
                by_cases hs : s.rr_slice_used + 1 ≥ s.quantum
                · refine ⟨q, ?_⟩
                  simp only [if_pos hs]
                  rw [lookupP_updProc, if_neg hk, h2]
                  simp
                · refine ⟨q, ?_⟩
                  simp only [if_neg hs]
                  simp [h2]
              · rw [if_neg hp]
                refine ⟨q, ?_⟩
                simp [h2]

theorem tick_procs_eq (s : Scheduler) :
    (s.tick).2.procs = (s.dispatchStage.waitStage.chargeStage).2.procs := rfl

/-- Claim C8: on every Scheduler.tick, after the dispatch step, every
process whose estado is READY has espera_acumulada incremented by
exactly 1, and no other process's espera_acumulada changes — whether or
not a dispatch occurred and whether or not any process is running. -/
theorem C8_wait_increment (s : Scheduler) (k : Int) (pcb1 : PCB)
    (h : lookupP s.dispatchStage.procs k = some pcb1) :
    (∀ pcb0, lookupP s.procs k = some pcb0 →
      pcb1.espera_acumulada = pcb0.espera_acumulada) ∧
    ∃ pcb2, lookupP (s.tick).2.procs k = some pcb2 ∧
      pcb2.espera_acumulada =
        pcb1.espera_acumulada +
          (if pcb1.estado = Estado.READY then 1 else 0) := by
  constructor
  · intro pcb0 h0
    rcases dispatchStage_procs_cases s with hc | ⟨pid, hrun, hc⟩
    · rw [hc, h0] at h
      cases h
      rfl
    · rw [hc] at h
      by_cases hk : k = pid
      · subst hk
        rw [lookupP_updProc, if_pos rfl, lookupP_ensureP k h0] at h
        have h3 : some (toRunning s.current_tick pcb0) = some pcb1 := h
        rw [(Option.some.inj h3).symm]
        rfl
      · rw [lookupP_updProc, if_neg hk, lookupP_ensureP_ne hk, h0] at h
        cases h
        rfl
  · have hw : lookupP s.dispatchStage.waitStage.procs k =
        some (bumpVal pcb1) := by
      rw [waitStage_lookup, h]
      rfl
    obtain ⟨q2, hq2, hesp, _⟩ :=
      chargeStage_espera s.dispatchStage.waitStage k (bumpVal pcb1) hw
    refine ⟨q2, ?_, ?_⟩
    · rw [tick_procs_eq]
      exact hq2
    · rw [hesp]
      unfold bumpVal
      by_cases he : pcb1.estado = Estado.READY
      · rw [if_pos he, if_pos he]
      · rw [if_neg he, if_neg he]
        exact (add_zero _).symm

/-- Witness for C8 at a concrete one-process state. -/
theorem C8_witness :
    ∃ pcb2, lookupP (C8s.tick).2.procs 1 = some pcb2 ∧
      pcb2.espera_acumulada =
        C8p.espera_acumulada +
          (if C8p.estado = Estado.READY then 1 else 0) :=
  (C8_wait_increment C8s 1 C8p (by decide)).2

theorem touchFirst_miss {fs : List Frame} {pid page tk : Int}
    (h : ∀ f ∈ fs, ¬(f.pid = pid ∧ f.page = page)) :
    touchFirst fs pid page tk = (false, fs) := by
  induction fs with
  | nil => rfl
  | cons f rest ih =>
      have ih2 := ih (fun g hg => h g (List.mem_cons_of_mem f hg))
      simp only [touchFirst, if_neg (h f (List.mem_cons_self f rest)), ih2]

theorem installFree_none_iff (fs : List Frame) (pid page tk : Int) :
    installFree fs pid page tk = none ↔ ∀ f ∈ fs, f.pid ≠ -1 := by
  induction fs with
  | nil => simp [installFree]
  | cons f rest ih =>
      by_cases hf : f.pid = -1
      · simp only [installFree, if_pos hf]
        constructor
        · intro h
          exact absurd h (by simp)
        · intro h
          exact absurd hf (h f (List.mem_cons_self f rest))
      · simp only [installFree, if_neg hf]
        cases hin : installFree rest pid page tk with
        | none =>
            simp only [List.mem_cons]
            constructor
            · intro _ g hg
              rcases hg with hg | hg
              · exact hg ▸ hf
              · exact (ih.mp hin) g hg
            · intro _
              trivial
        | some r =>
            simp only [List.mem_cons]
            constructor
            · intro h
              exact absurd h (by simp)
            · intro h
              have hn : installFree rest pid page tk = none :=
                ih.mpr (fun g hg => h g (Or.inr hg))
              rw [hn] at hin
              exact absurd hin (by simp)

theorem choose_victim_fields (m : MemoryManager) :
    (m.choose_victim).2.total_page_faults = m.total_page_faults ∧
    (m.choose_victim).2.total_replacements = m.total_replacements ∧
    (m.choose_victim).2.frames = m.frames ∧
    (m.choose_victim).2.policy = m.policy ∧
    (m.choose_victim).2.tick_counter = m.tick_counter := by
  unfold MemoryManager.choose_victim
  cases hp : m.policy
  · cases hq : m.fifo_queue <;> simp [hp, hq]
  · simp [hp]

theorem load_page_stats (m : MemoryManager) (pid page : Int) :
    (m.load_page pid page).2.total_page_faults = m.total_page_faults + 1 ∧
    ((m.load_page pid page).2.total_replacements = m.total_replacements + 1 ↔
      ∀ f ∈ m.frames, f.pid ≠ -1) ∧
    ((∃ f ∈ m.frames, f.pid = -1) →
      (m.load_page pid page).2.total_replacements = m.total_replacements) := by
  unfold MemoryManager.load_page
  dsimp only
  cases hin : installFree m.frames pid page m.tick_counter with
  | some r =>
      dsimp only
      have hfree : ¬∀ f ∈ m.frames, f.pid ≠ -1 := by
        intro hall
        rw [(installFree_none_iff m.frames pid page m.tick_counter).mpr hall]
          at hin
        exact absurd hin (by simp)
      refine ⟨?_, ?_, ?_⟩
      · split <;> rfl
      · split <;> (refine iff_of_false ?_ hfree ; dsimp only ; omega)
      · intro _
        split <;> rfl
  | none =>
      dsimp only
      have hall := (installFree_none_iff m.frames pid page m.tick_counter).mp hin
      obtain ⟨v1, v2, v3, v4, v5⟩ := choose_victim_fields
        { m with total_page_faults := m.total_page_faults + 1 }
      refine ⟨?_, ?_, ?_⟩
      · split <;> simp [v1]
      · split <;> (refine iff_of_true ?_ hall ; simp [v2])
      · intro hex
        obtain ⟨f, hf, hfp⟩ := hex
        exact absurd hfp (hall f hf)

theorem access_page_hit (m : MemoryManager) (pid page : Int)
    (ht : (touchFirst m.frames pid page m.tick_counter).1 = true) :
    m.access_page pid page =
      ((true, -1),
        { m with frames := (touchFirst m.frames pid page m.tick_counter).2 }) := by
  unfold MemoryManager.access_page MemoryManager.is_resident_and_touch
  dsimp only
  rw [if_pos ht]

theorem access_page_fault (m : MemoryManager) (pid page : Int)
    (ht : (touchFirst m.frames pid page m.tick_counter).1 = false) :
    m.access_page pid page =
      ((false, (m.load_page pid page).1), (m.load_page pid page).2) := by
  unfold MemoryManager.access_page MemoryManager.is_resident_and_touch
  dsimp only
  rw [ht]
  simp

/-- Claim C7: every miss increments total_page_faults by exactly 1 and
every hit leaves both counters unchanged; total_replacements is
incremented exactly on misses finding no free frame (a fill into a free
frame is excluded); hence over any access sequence total faults equal
total accesses minus total hits, and the replacement increment never
exceeds the fault increment. -/
theorem C7_stats :
    (∀ (m : MemoryManager) (pid page : Int),
      ((m.access_page pid page).1.1 = true →
        (m.access_page pid page).2.total_page_faults = m.total_page_faults ∧
        (m.access_page pid page).2.total_replacements = m.total_replacements) ∧
      ((m.access_page pid page).1.1 = false →
        (m.access_page pid page).2.total_page_faults = m.total_page_faults + 1 ∧
        ((m.access_page pid page).2.total_replacements
            = m.total_replacements + 1 ↔ ∀ f ∈ m.frames, f.pid ≠ -1) ∧
        ((∃ f ∈ m.frames, f.pid = -1) →
          (m.access_page pid page).2.total_replacements
            = m.total_replacements))) ∧
    (∀ (m : MemoryManager) (ops : List (Int × Int)),
      (runAccesses m ops).2 ≤ ops.length ∧
      (runAccesses m ops).1.total_page_faults =
        m.total_page_faults + (ops.length : Int)
          - ((runAccesses m ops).2 : Int) ∧
      (runAccesses m ops).1.total_replacements - m.total_replacements ≤
        (runAccesses m ops).1.total_page_faults - m.total_page_faults) := by
  have hstep : ∀ (m : MemoryManager) (pid page : Int),
      ((m.access_page pid page).1.1 = true →
        (m.access_page pid page).2.total_page_faults = m.total_page_faults ∧
        (m.access_page pid page).2.total_replacements = m.total_replacements) ∧
      ((m.access_page pid page).1.1 = false →
        (m.access_page pid page).2.total_page_faults = m.total_page_faults + 1 ∧
        ((m.access_page pid page).2.total_replacements
            = m.total_replacements + 1 ↔ ∀ f ∈ m.frames, f.pid ≠ -1) ∧
        ((∃ f ∈ m.frames, f.pid = -1) →
          (m.access_page pid page).2.total_replacements
            = m.total_replacements)) := by
    intro m pid page
    cases ht : (touchFirst m.frames pid page m.tick_counter).1 with
    | true =>
        rw [access_page_hit m pid page ht]
        constructor
        · intro _
          exact ⟨rfl, rfl⟩
        · intro hcon
          simp at hcon
    | false =>
        rw [access_page_fault m pid page ht]
        obtain ⟨l1, l2, l3⟩ := load_page_stats m pid page
        constructor
        · intro hcon
          simp at hcon
        · intro _
          exact ⟨l1, l2, l3⟩
  refine ⟨hstep, ?_⟩
  intro m ops
  induction ops generalizing m with
  | nil => simp [runAccesses]
  | cons a rest ih =>
      simp only [runAccesses]
      obtain ⟨hh, hm⟩ := hstep (m.advance_tick) a.1 a.2
      obtain ⟨ih1, ih2, ih3⟩ := ih ((m.advance_tick).access_page a.1 a.2).2
      have ha1 : (m.advance_tick).total_page_faults = m.total_page_faults := rfl
      have ha2 : (m.advance_tick).total_replacements = m.total_replacements :=
        rfl
      cases hb : ((m.advance_tick).access_page a.1 a.2).1.1 with
      | true =>
          obtain ⟨he1, he2⟩ := hh hb
          rw [he1, ha1] at ih2
          rw [he1, ha1, he2, ha2] at ih3
          simp only [hb, ite_true, List.length_cons]
          refine ⟨by omega, by push_cast ; omega, by omega⟩
      | false =>
          obtain ⟨he1, he2, he3⟩ := hm hb
          rw [he1, ha1] at ih2
          rw [he1, ha1] at ih3
          have hrep : ((m.advance_tick).access_page a.1 a.2).2.total_replacements
                = m.total_replacements + 1 ∨
              ((m.advance_tick).access_page a.1 a.2).2.total_replacements
                = m.total_replacements := by
            by_cases hc : ∀ f ∈ (m.advance_tick).frames, f.pid ≠ -1
            · exact Or.inl (ha2 ▸ he2.mpr hc)
            · push_neg at hc
              obtain ⟨f, hf, hfp⟩ := hc
              exact Or.inr (ha2 ▸ he3 ⟨f, hf, hfp⟩)
          simp only [hb, List.length_cons]
          have hg : ((if (false = true) then (1 : Nat) else 0)) = 0 := by simp
          rw [hg]
          rcases hrep with hr | hr <;> rw [hr] at ih3 <;>
            refine ⟨by omega, by push_cast ; omega, by omega⟩

/-- Witness for C7: the first access to a fresh manager is a miss that
fills a free frame, so faults go to 1 while replacements stay 0. -/
theorem C7_witness :
    (C7m.access_page 1 0).2.total_page_faults = C7m.total_page_faults + 1 ∧
    (C7m.access_page 1 0).2.total_replacements = C7m.total_replacements :=
  ⟨((C7_stats.1 C7m 1 0).2 (by decide)).1,
   ((C7_stats.1 C7m 1 0).2 (by decide)).2.2
     ⟨Frame.build 0, by decide, by decide⟩⟩

theorem choose_victim_fifo (m : MemoryManager) (v : Int) (rest : List Int)
    (hp : m.policy = ReplPolicy.FIFO) (hq : m.fifo_queue = v :: rest) :
    m.choose_victim = (v, { m with fifo_queue := rest }) := by
  unfold MemoryManager.choose_victim
  rw [hp, hq]

theorem installFree_append (l1 l2 : List Frame) (pid page tk : Int)
    (h : ∀ f ∈ l1, f.pid ≠ -1) :
    installFree (l1 ++ l2) pid page tk =
      (installFree l2 pid page tk).map (fun r => (r.1, l1 ++ r.2)) := by
  induction l1 with
  | nil => simp
  | cons f rest ih =>
      have hf : ¬f.pid = -1 := h f (List.mem_cons_self f rest)
      rw [List.cons_append, installFree, if_neg hf,
        ih (fun g hg => h g (List.mem_cons_of_mem f hg))]
      cases installFree l2 pid page tk with
      | none => rfl
      | some r => rfl

theorem installFree_cons_free (f : Frame) (fs : List Frame)
    (pid page tk : Int) (hf : f.pid = -1) :
    installFree (f :: fs) pid page tk =
      some (f.fid, { f with pid := pid, page := page, loaded_at_tick := tk,
                            last_access_tick := tk } :: fs) := by
  rw [installFree, if_pos hf]

theorem load_page_fifo_evict (m : MemoryManager) (pid page v : Int)
    (rest : List Int)
    (hp : m.policy = ReplPolicy.FIFO) (hq : m.fifo_queue = v :: rest)
    (hv : v ∉ rest) (hnofree : ∀ f ∈ m.frames, f.pid ≠ -1) :
    m.load_page pid page =
      (v, { m with
              frames := setFrameIdx m.frames v (fun f =>
                { f with pid := pid, page := page,
                         loaded_at_tick := m.tick_counter,
                         last_access_tick := m.tick_counter }),
              fifo_queue := rest ++ [v],
              total_page_faults := m.total_page_faults + 1,
              total_replacements := m.total_replacements + 1 }) := by
  unfold MemoryManager.load_page
  dsimp only
  rw [(installFree_none_iff m.frames pid page m.tick_counter).mpr hnofree]
  dsimp only
  rw [choose_victim_fifo { m with total_page_faults := m.total_page_faults + 1 }
    v rest hp hq]
  dsimp only
  rw [if_pos hp, eraseFirstInt_of_not_mem hv]

theorem fifoInv_miss (pid : Int) (ps : Nat → Int) (F k j : Nat)
    (hpid : pid ≠ -1) (_hk : k ≤ F) (hj : j ≤ F)
    (hinj : ∀ a b, a ≤ F → b ≤ F → a ≠ b → ps a ≠ ps b)
    (hkj : k ≤ j) :
    ∀ f ∈ (fifoInv pid ps F k).frames, ¬(f.pid = pid ∧ f.page = ps j) := by
  intro f hf
  rcases List.mem_append.mp hf with hm | hm
  · obtain ⟨i, hi, hfe⟩ := List.mem_map.mp hm
    have hiF : i < k := List.mem_range.mp hi
    rintro ⟨_, hpg⟩
    subst hfe
    exact hinj i j (by omega) hj (by omega) hpg
  · obtain ⟨i, hi, hfe⟩ := List.mem_map.mp hm
    rintro ⟨hp1, _⟩
    subst hfe
    exact hpid hp1.symm

theorem fifoInv_no_free (pid : Int) (ps : Nat → Int) (F : Nat)
    (hpid : pid ≠ -1) :
    ∀ f ∈ (fifoInv pid ps F F).frames, f.pid ≠ -1 := by
  intro f hf
  rcases List.mem_append.mp hf with hm | hm
  · obtain ⟨i, hi, hfe⟩ := List.mem_map.mp hm
    subst hfe
    exact hpid
  · rw [Nat.sub_self, List.range'_zero] at hm
    simp at hm

theorem fifo_fill_step (pid : Int) (ps : Nat → Int) (F k : Nat)
    (hpid : pid ≠ -1) (hk : k < F)
    (hinj : ∀ a b, a ≤ F → b ≤ F → a ≠ b → ps a ≠ ps b) :
    ((fifoInv pid ps F k).advance_tick).access_page pid (ps k)
      = ((false, (k : Int)), fifoInv pid ps F (k + 1)) := by
  have hmiss : ∀ f ∈ ((fifoInv pid ps F k).advance_tick).frames,
      ¬(f.pid = pid ∧ f.page = ps k) :=
    fifoInv_miss pid ps F k k hpid (by omega) (by omega) hinj (by omega)
  have ht : (touchFirst ((fifoInv pid ps F k).advance_tick).frames pid (ps k)
      ((fifoInv pid ps F k).advance_tick).tick_counter).1 = false := by
    rw [touchFirst_miss hmiss]
  rw [access_page_fault _ _ _ ht]
  have hFk : F - k = (F - k - 1) + 1 := by omega
  have hsplit : (List.range' k (F - k)).map
      (fun (i : Nat) => Frame.build (i : Int)) =
      Frame.build (k : Int) ::
        (List.range' (k + 1) (F - k - 1)).map (fun (i : Nat) => Frame.build (i : Int)) := by
    rw [hFk, List.range'_succ]
    rfl
  have hocc : ∀ f ∈ (List.range k).map (occF pid ps), f.pid ≠ -1 := by
    intro f hf
    obtain ⟨i, _, hfe⟩ := List.mem_map.mp hf
    subst hfe
    exact hpid
  have hins : installFree ((fifoInv pid ps F k).advance_tick).frames pid (ps k)
      ((fifoInv pid ps F k).advance_tick).tick_counter =
      some ((k : Int),
        (List.range k).map (occF pid ps) ++ occF pid ps k ::
          (List.range' (k + 1) (F - k - 1)).map (fun (i : Nat) => Frame.build (i : Int))) := by
    show installFree ((List.range k).map (occF pid ps) ++
        (List.range' k (F - k)).map (fun (i : Nat) => Frame.build (i : Int)))
        pid (ps k) ((k : Int) + 1) = _
    rw [hsplit, installFree_append _ _ _ _ _ hocc,
      installFree_cons_free _ _ _ _ _ rfl]
    show some ((k : Int), _ ++ _) = _
    refine congrArg some (congrArg _ (congrArg _ (congrArg (· :: _) ?_)))
    show ({ fid := (k : Int), pid := pid, page := ps k,
            loaded_at_tick := (k : Int) + 1,
            last_access_tick := (k : Int) + 1 } : Frame) = occF pid ps k
    rfl
  unfold MemoryManager.load_page
  dsimp only
  rw [hins]
  dsimp only
  rw [if_pos (show ((fifoInv pid ps F k).advance_tick).policy
    = ReplPolicy.FIFO from rfl)]
  refine congrArg (Prod.mk (false, (k : Int))) ?_
  unfold fifoInv
  refine MemoryManager.mk.injEq _ _ _ _ _ _ _ _ _ _ _ _ |>.mpr ?_
  refine ⟨?_, rfl, ?_, ?_, ?_, rfl⟩
  · rw [List.range_succ, List.map_append, List.append_assoc]
    have : F - (k + 1) = F - k - 1 := by omega
    rw [this]
    rfl
  · show (k : Int) + 1 = ((k + 1 : Nat) : Int)
    push_cast
    ring
  · rw [List.range_succ, List.map_append]
    rfl
  · show (k : Int) + 1 = ((k + 1 : Nat) : Int)
    push_cast
    ring

theorem fifoScenario_eq (pid : Int) (ps : Nat → Int) (F : Nat)
    (hpid : pid ≠ -1)
    (hinj : ∀ a b, a ≤ F → b ≤ F → a ≠ b → ps a ≠ ps b) :
    ∀ k, k ≤ F → fifoScenario pid ps F k = fifoInv pid ps F k := by
  intro k
  induction k with
  | zero =>
      intro _
      unfold fifoScenario fifoInv MemoryManager.build
      rw [List.range_eq_range']
      rfl
  | succ k ih =>
      intro hk
      rw [fifoScenario, ih (by omega), fifo_fill_step pid ps F k hpid
        (by omega) hinj]

/-- Claim C5: under FIFO, the victim on a fault with no free frame is
the head of the admission-order queue, and afterwards that frame id is
removed from its old position and pushed to the tail; consequently,
filling a fresh pool of F frames with F distinct pages and then
accessing an (F+1)-th distinct page evicts the first-inserted page,
which occupied frame 0. -/
theorem C5_fifo :
    (∀ (m : MemoryManager) (pid page v : Int) (rest : List Int),
      m.policy = ReplPolicy.FIFO →
      m.fifo_queue = v :: rest →
      v ∉ rest →
      (∀ f ∈ m.frames, f.pid ≠ -1) →
      (∀ f ∈ m.frames, ¬(f.pid = pid ∧ f.page = page)) →
      (m.access_page pid page).1 = (false, v) ∧
      (m.access_page pid page).2.fifo_queue = rest ++ [v]) ∧
    (∀ (F : Nat) (pid : Int) (ps : Nat → Int),
      1 ≤ F → pid ≠ -1 →
      (∀ i j, i ≤ F → j ≤ F → i ≠ j → ps i ≠ ps j) →
      (∃ f ∈ (fifoScenario pid ps F F).frames,
         f.fid = 0 ∧ f.pid = pid ∧ f.page = ps 0) ∧
      (((fifoScenario pid ps F F).advance_tick).access_page pid (ps F)).1
        = (false, 0) ∧
      (∀ f ∈ (((fifoScenario pid ps F F).advance_tick).access_page
          pid (ps F)).2.frames, ¬(f.pid = pid ∧ f.page = ps 0)) ∧
      (∃ f ∈ (((fifoScenario pid ps F F).advance_tick).access_page
          pid (ps F)).2.frames, f.pid = pid ∧ f.page = ps F)) := by
  constructor
  · intro m pid page v rest hp hq hv hnofree hmiss
    have ht : (touchFirst m.frames pid page m.tick_counter).1 = false := by
      rw [touchFirst_miss hmiss]
    rw [access_page_fault _ _ _ ht,
      load_page_fifo_evict m pid page v rest hp hq hv hnofree]
    exact ⟨rfl, rfl⟩
  · intro F pid ps hF hpid hinj
    rw [fifoScenario_eq pid ps F hpid hinj F (le_refl F)]
    have hF' : F = (F - 1) + 1 := by omega
    have hr0 : List.range F = 0 :: List.range' 1 (F - 1) := by
      rw [List.range_eq_range']
      conv_lhs => rw [hF']
      rw [List.range'_succ]
    have hframes : (fifoInv pid ps F F).frames =
        occF pid ps 0 :: (List.range' 1 (F - 1)).map (occF pid ps) := by
      show (List.range F).map (occF pid ps) ++
        (List.range' F (F - F)).map (fun (i : Nat) => Frame.build (i : Int)) = _
      rw [Nat.sub_self, List.range'_zero, List.map_nil, List.append_nil, hr0]
      rfl
    have hqueue : ((fifoInv pid ps F F).advance_tick).fifo_queue =
        0 :: (List.range' 1 (F - 1)).map (fun (i : Nat) => (i : Int)) := by
      show (List.range F).map (fun (i : Nat) => (i : Int)) = _
      rw [hr0]
      rfl
    have hnotmem : (0 : Int) ∉
        (List.range' 1 (F - 1)).map (fun (i : Nat) => (i : Int)) := by
      intro hm
      obtain ⟨i, hi, he⟩ := List.mem_map.mp hm
      have h1 : 1 ≤ i := (List.mem_range'_1.mp hi).1
      omega
    have hnofree2 : ∀ f ∈ ((fifoInv pid ps F F).advance_tick).frames,
        f.pid ≠ -1 := fifoInv_no_free pid ps F hpid
    have hmiss2 : ∀ f ∈ ((fifoInv pid ps F F).advance_tick).frames,
        ¬(f.pid = pid ∧ f.page = ps F) :=
      fifoInv_miss pid ps F F F hpid (le_refl F) (le_refl F) hinj (le_refl F)
    have ht : (touchFirst ((fifoInv pid ps F F).advance_tick).frames pid (ps F)
        ((fifoInv pid ps F F).advance_tick).tick_counter).1 = false := by
      rw [touchFirst_miss hmiss2]
    have heval : ((fifoInv pid ps F F).advance_tick).load_page pid (ps F) =
        (0, { frames :=
                ({ fid := 0, pid := pid, page := ps F,
                   loaded_at_tick := (F : Int) + 1,
                   last_access_tick := (F : Int) + 1 } : Frame) ::
                  (List.range' 1 (F - 1)).map (occF pid ps),
              policy := ReplPolicy.FIFO,
              tick_counter := (F : Int) + 1,
              fifo_queue :=
                (List.range' 1 (F - 1)).map (fun (i : Nat) => (i : Int)) ++ [0],
              total_page_faults := (F : Int) + 1,
              total_replacements := 1 }) := by
      rw [load_page_fifo_evict _ pid (ps F) 0
        ((List.range' 1 (F - 1)).map (fun (i : Nat) => (i : Int)))
        rfl hqueue hnotmem hnofree2]
      have hfr : setFrameIdx ((fifoInv pid ps F F).advance_tick).frames 0
          (fun f => { f with pid := pid, page := ps F,
                             loaded_at_tick :=
                               ((fifoInv pid ps F F).advance_tick).tick_counter,
                             last_access_tick :=
                               ((fifoInv pid ps F F).advance_tick).tick_counter }) =
          ({ fid := 0, pid := pid, page := ps F,
             loaded_at_tick := (F : Int) + 1,
             last_access_tick := (F : Int) + 1 } : Frame) ::
            (List.range' 1 (F - 1)).map (occF pid ps) := by
        show setFrameIdx (fifoInv pid ps F F).frames 0 _ = _
        rw [hframes]
        rfl
      rw [hfr]
      rfl
    refine ⟨?_, ?_, ?_, ?_⟩
    · rw [hframes]
      exact ⟨occF pid ps 0, List.mem_cons_self _ _, rfl, rfl, rfl⟩
    · rw [access_page_fault _ _ _ ht, heval]
    · rw [access_page_fault _ _ _ ht, heval]
      intro f hf
      rcases List.mem_cons.mp hf with hc | hc
      · subst hc
        rintro ⟨_, hpg⟩
        exact hinj F 0 (le_refl F) (by omega) (by omega) hpg
      · obtain ⟨i, hi, hfe⟩ := List.mem_map.mp hc
        have h1 : 1 ≤ i := (List.mem_range'_1.mp hi).1
        have h2 : i < 1 + (F - 1) := (List.mem_range'_1.mp hi).2
        subst hfe
        rintro ⟨_, hpg⟩
        exact hinj i 0 (by omega) (by omega) (by omega) hpg
    · rw [access_page_fault _ _ _ ht, heval]
      refine ⟨_, List.mem_cons_self _ _, rfl, rfl⟩

/-- Witness for C5 at a concrete 2-frame manager with full pool. -/
theorem C5_witness :
    (((fifoScenario 1 C5ps 2 2).advance_tick).access_page 1 (C5ps 2)).1
      = (false, 0) :=
  ((C5_fifo.2 2 1 C5ps (by decide) (by decide)
    (fun i j hi hj hne => by
      intro he
      simp only [C5ps] at he
      exact hne (by exact_mod_cast he))).2.1)

theorem minFold_go (key : Frame → Int) :
    ∀ (fs : List Frame) (accv accf : Int),
      List.Pairwise (fun a b => a.fid < b.fid) fs →
      (∀ f ∈ fs, key f = accv → accf < f.fid) →
      (fs.foldl (fun acc f => if key f < acc.1 then (key f, f.fid) else acc)
          (accv, accf)).1 ≤ accv ∧
      (∀ f ∈ fs,
        (fs.foldl (fun acc f => if key f < acc.1 then (key f, f.fid) else acc)
            (accv, accf)).1 ≤ key f) ∧
      (((fs.foldl (fun acc f => if key f < acc.1 then (key f, f.fid) else acc)
            (accv, accf)) = (accv, accf)) ∨
        (∃ f0 ∈ fs,
          (fs.foldl (fun acc f => if key f < acc.1 then (key f, f.fid) else acc)
              (accv, accf)) = (key f0, f0.fid) ∧ key f0 < accv)) ∧
      (∀ f ∈ fs,
        key f =
          (fs.foldl (fun acc f => if key f < acc.1 then (key f, f.fid) else acc)
              (accv, accf)).1 →
        (fs.foldl (fun acc f => if key f < acc.1 then (key f, f.fid) else acc)
            (accv, accf)).2 ≤ f.fid) := by
  intro fs
  induction fs with
  | nil =>
      intro accv accf _ _
      exact ⟨le_refl _, by simp, Or.inl rfl, by simp⟩
  | cons f fs ih =>
      intro accv accf hpw hconn
      have hpw2 := (List.pairwise_cons.mp hpw).2
      have hhead := (List.pairwise_cons.mp hpw).1
      by_cases hlt : key f < accv
      · have hconn2 : ∀ g ∈ fs, key g = key f → f.fid < g.fid :=
          fun g hg _ => hhead g hg
        obtain ⟨i1, i2, i3, i4⟩ := ih (key f) f.fid hpw2 hconn2
        have hfold : (f :: fs).foldl
            (fun acc f => if key f < acc.1 then (key f, f.fid) else acc)
            (accv, accf) =
            fs.foldl (fun acc f => if key f < acc.1 then (key f, f.fid) else acc)
              (key f, f.fid) := by
          rw [List.foldl_cons, if_pos hlt]
        rw [hfold]
        refine ⟨le_trans i1 (le_of_lt hlt), ?_, ?_, ?_⟩
        · intro g hg
          rcases List.mem_cons.mp hg with hc | hc
          · exact hc ▸ i1
          · exact i2 g hc
        · rcases i3 with hc | ⟨f0, hf0, he, hl⟩
          · exact Or.inr ⟨f, List.mem_cons_self f fs, hc, hlt⟩
          · exact Or.inr ⟨f0, List.mem_cons_of_mem f hf0, he,
              lt_trans hl hlt⟩
        · intro g hg hke
          rcases List.mem_cons.mp hg with hc | hc
          · subst hc
            rcases i3 with hc2 | ⟨f0, hf0, he, hl⟩
            · rw [hc2]
            · rw [he] at hke ⊢
              exact absurd hke (by dsimp only ; omega)
          · exact i4 g hc hke
      · have hconn2 : ∀ g ∈ fs, key g = accv → accf < g.fid :=
          fun g hg he => hconn g (List.mem_cons_of_mem f hg) he
        obtain ⟨i1, i2, i3, i4⟩ := ih accv accf hpw2 hconn2
        have hfold : (f :: fs).foldl
            (fun acc f => if key f < acc.1 then (key f, f.fid) else acc)
            (accv, accf) =
            fs.foldl (fun acc f => if key f < acc.1 then (key f, f.fid) else acc)
              (accv, accf) := by
          rw [List.foldl_cons, if_neg hlt]
        rw [hfold]
        refine ⟨i1, ?_, ?_, ?_⟩
        · intro g hg
          rcases List.mem_cons.mp hg with hc | hc
          · subst hc
            omega
          · exact i2 g hc
        · rcases i3 with hc | ⟨f0, hf0, he, hl⟩
          · exact Or.inl hc
          · exact Or.inr ⟨f0, List.mem_cons_of_mem f hf0, he, hl⟩
        · intro g hg hke
          rcases List.mem_cons.mp hg with hc | hc
          · subst hc
            rcases i3 with hc2 | ⟨f0, hf0, he, hl⟩
            · rw [hc2] at hke ⊢
              dsimp only at hke ⊢
              exact le_of_lt (hconn g (List.mem_cons_self g fs) hke)
            · rw [he] at hke ⊢
              dsimp only at hke ⊢
              omega
          · exact i4 g hc hke

theorem choose_victim_lru (m : MemoryManager)
    (hp : m.policy = ReplPolicy.LRU)
    (hne : m.frames ≠ [])
    (hpw : List.Pairwise (fun a b => a.fid < b.fid) m.frames)
    (hbound : ∀ f ∈ m.frames, f.last_access_tick < LLONG_MAX) :
    (m.choose_victim).2 = m ∧
    ∃ f0 ∈ m.frames, (m.choose_victim).1 = f0.fid ∧
      (∀ f ∈ m.frames, f0.last_access_tick ≤ f.last_access_tick) ∧
      (∀ f ∈ m.frames,
        f.last_access_tick = f0.last_access_tick → f0.fid ≤ f.fid) := by
  have hcv : m.choose_victim =
      ((minFold (fun f => f.last_access_tick) m.frames).2, m) := by
    unfold MemoryManager.choose_victim
    rw [hp]
  obtain ⟨i1, i2, i3, i4⟩ := minFold_go (fun f => f.last_access_tick) m.frames
    LLONG_MAX 0 hpw
    (fun f hf he => absurd he (ne_of_lt (hbound f hf)))
  rcases i3 with hc | ⟨f0, hf0, he, _⟩
  · exfalso
    obtain ⟨g, hg⟩ := List.exists_mem_of_ne_nil m.frames hne
    have h1 := i2 g hg
    have h2 := hbound g hg
    rw [hc] at h1
    dsimp only at h1
    omega
  · refine ⟨by rw [hcv], f0, hf0, ?_, ?_, ?_⟩
    · rw [hcv]
      show (minFold (fun f => f.last_access_tick) m.frames).2 = f0.fid
      unfold minFold
      rw [he]
    · intro f hf
      have := i2 f hf
      rw [he] at this
      exact this
    · intro f hf hke
      have := i4 f hf (by rw [he] ; exact hke)
      rw [he] at this
      exact this

theorem lruS3_eq (pid A B : Int) (hpid : pid ≠ -1) (hAB : A ≠ B) :
    lruS3 pid A B =
      mkMM [mkFr 0 pid A 1 3, mkFr 1 pid B 2 2] ReplPolicy.LRU 3 [] 2 0 := by
  have h1 : ((MemoryManager.build 2 ReplPolicy.LRU).advance_tick).access_page
      pid A = ((false, 0),
      mkMM [mkFr 0 pid A 1 1, Frame.build 1] ReplPolicy.LRU 1 [] 1 0) := by
    simp [MemoryManager.build, MemoryManager.advance_tick,
      MemoryManager.access_page, MemoryManager.is_resident_and_touch,
      MemoryManager.load_page, touchFirst, installFree, Frame.build,
      mkMM, mkFr, Ne.symm hpid, List.range]
  have h2 : ((mkMM [mkFr 0 pid A 1 1, Frame.build 1]
      ReplPolicy.LRU 1 [] 1 0).advance_tick).access_page pid B = ((false, 1),
      mkMM [mkFr 0 pid A 1 1, mkFr 1 pid B 2 2] ReplPolicy.LRU 2 [] 2 0) := by
    simp [MemoryManager.advance_tick, MemoryManager.access_page,
      MemoryManager.is_resident_and_touch, MemoryManager.load_page,
      touchFirst, installFree, Frame.build, mkMM, mkFr,
      hpid, Ne.symm hpid, hAB]
  have h3 : ((mkMM [mkFr 0 pid A 1 1, mkFr 1 pid B 2 2]
      ReplPolicy.LRU 2 [] 2 0).advance_tick).access_page pid A = ((true, -1),
      mkMM [mkFr 0 pid A 1 3, mkFr 1 pid B 2 2] ReplPolicy.LRU 3 [] 2 0) := by
    simp [MemoryManager.advance_tick, MemoryManager.access_page,
      MemoryManager.is_resident_and_touch, touchFirst, mkMM, mkFr]
  unfold lruS3
  rw [h1]
  dsimp only
  rw [h2]
  dsimp only
  rw [h3]

theorem lruS3_evict (pid A B C : Int) (hpid : pid ≠ -1) (hAB : A ≠ B)
    (hCA : C ≠ A) (hCB : C ≠ B) :
    ((lruS3 pid A B).advance_tick).access_page pid C = ((false, 1),
      mkMM [mkFr 0 pid A 1 3, mkFr 1 pid C 4 4] ReplPolicy.LRU 4 [] 3 1) := by
  rw [lruS3_eq pid A B hpid hAB]
  simp [MemoryManager.advance_tick, MemoryManager.access_page,
    MemoryManager.is_resident_and_touch, MemoryManager.load_page,
    MemoryManager.choose_victim, minFold, touchFirst, installFree,
    setFrameIdx, setFrameAt, eraseFirstInt, LLONG_MAX, mkMM, mkFr,
    hpid, Ne.symm hpid, Ne.symm hCA, Ne.symm hCB]

/-- Claim C6: under LRU, the victim on a fault with no free frame is the
frame with the smallest last_access_tick among all frames, ties broken
by the lowest frame id (frames are scanned in frame-id order); in
particular with 2 frames the access sequence [A, B, A, C] evicts B
(frame 1) at C's fault, while A stays resident. -/
theorem C6_lru :
    (∀ (m : MemoryManager),
      m.policy = ReplPolicy.LRU →
      m.frames ≠ [] →
      List.Pairwise (fun a b => a.fid < b.fid) m.frames →
      (∀ f ∈ m.frames, f.last_access_tick < LLONG_MAX) →
      (m.choose_victim).2 = m ∧
      ∃ f0 ∈ m.frames, (m.choose_victim).1 = f0.fid ∧
        (∀ f ∈ m.frames, f0.last_access_tick ≤ f.last_access_tick) ∧
        (∀ f ∈ m.frames,
          f.last_access_tick = f0.last_access_tick → f0.fid ≤ f.fid)) ∧
    (∀ (pid A B C : Int), pid ≠ -1 → A ≠ B → C ≠ A → C ≠ B →
      (∃ f ∈ (lruS3 pid A B).frames,
        f.fid = 1 ∧ f.pid = pid ∧ f.page = B) ∧
      (((lruS3 pid A B).advance_tick).access_page pid C).1 = (false, 1) ∧
      (∀ f ∈ (((lruS3 pid A B).advance_tick).access_page pid C).2.frames,
        ¬(f.pid = pid ∧ f.page = B)) ∧
      (∃ f ∈ (((lruS3 pid A B).advance_tick).access_page pid C).2.frames,
        f.pid = pid ∧ f.page = A)) := by
  constructor
  · intro m hp hne hpw hbound
    exact choose_victim_lru m hp hne hpw hbound
  · intro pid A B C hpid hAB hCA hCB
    refine ⟨?_, ?_, ?_, ?_⟩
    · rw [lruS3_eq pid A B hpid hAB]
      exact ⟨mkFr 1 pid B 2 2, by simp [mkMM], rfl, rfl, rfl⟩
    · rw [lruS3_evict pid A B C hpid hAB hCA hCB]
    · rw [lruS3_evict pid A B C hpid hAB hCA hCB]
      intro f hf
      simp only [mkMM, mkFr, List.mem_cons, List.mem_singleton] at hf
      rcases hf with hf | hf | hf
      · subst hf
        rintro ⟨_, hpg⟩
        exact hAB hpg
      · subst hf
        rintro ⟨_, hpg⟩
        exact hCB hpg
      · simp at hf
    · rw [lruS3_evict pid A B C hpid hAB hCA hCB]
      exact ⟨mkFr 0 pid A 1 3, by simp [mkMM], rfl, rfl⟩

/-- Witness for C6 at pid 1 and pages 0, 1, 2. -/
theorem C6_witness :
    (((lruS3 1 0 1).advance_tick).access_page 1 2).1 = (false, 1) :=
  (C6_lru.2 1 0 1 2 (by decide) (by decide) (by decide) (by decide)).2.1

theorem bumpVal_running {q : PCB} (hest : q.estado = Estado.RUNNING) :
    bumpVal q = q := by
  unfold bumpVal
  rw [hest]
  rfl

theorem dispatchStage_running {s : Scheduler} {p : Int}
    (hrun : s.running_pid = some p) : s.dispatchStage = s := by
  unfold Scheduler.dispatchStage
  rw [hrun]

theorem tick_running_rr (s : Scheduler) (p : Int) (q : PCB)
    (hrun : s.running_pid = some p)
    (hlook : lookupP s.procs p = some q)
    (hest : q.estado = Estado.RUNNING)
    (hraf : 1 < q.rafaga_restante)
    (hpol : s.policy = CPUPolicy.RR) :
    (s.rr_slice_used + 1 ≥ s.quantum →
      s.tick = (some p,
        { s with
          procs := updProc (updProc (mapVals bumpVal s.procs) p decBurst)
            p toReadyE,
          ready_q := s.ready_q ++ [p],
          running_pid := none, rr_slice_used := 0,
          current_tick := s.current_tick + 1 })) ∧
    (¬(s.rr_slice_used + 1 ≥ s.quantum) →
      s.tick = (some p,
        { s with
          procs := updProc (mapVals bumpVal s.procs) p decBurst,
          rr_slice_used := s.rr_slice_used + 1,
          current_tick := s.current_tick + 1 })) := by
  have hl2 : lookupP (mapVals bumpVal s.procs) p = some q := by
    rw [lookupP_mapVals, hlook]
    show some (bumpVal q) = some q
    rw [bumpVal_running hest]
  have hw : s.dispatchStage.waitStage =
      { s with procs := mapVals bumpVal s.procs } := by
    rw [dispatchStage_running hrun]
    rfl
  have he : ensureP (mapVals bumpVal s.procs) p = mapVals bumpVal s.procs :=
    ensureP_of_some hl2
  have hl3 : lookupP (updProc (mapVals bumpVal s.procs) p decBurst) p =
      some (decBurst q) := by
    rw [lookupP_updProc, if_pos rfl, hl2]
    rfl
  have hnb : ¬((decBurst q).rafaga_restante ≤ 0) := by
    unfold decBurst
    dsimp only
    omega
  constructor
  · intro hs
    show (((s.dispatchStage.waitStage).chargeStage).1,
      { ((s.dispatchStage.waitStage).chargeStage).2 with
        current_tick :=
          ((s.dispatchStage.waitStage).chargeStage).2.current_tick + 1 }) = _
    rw [hw]
    unfold Scheduler.chargeStage
    dsimp only
    rw [hrun]
    dsimp only
    rw [he, hl3]
    dsimp only [Option.getD_some]
    rw [if_neg hnb, if_pos hpol, if_pos hs]
  · intro hs
    show (((s.dispatchStage.waitStage).chargeStage).1,
      { ((s.dispatchStage.waitStage).chargeStage).2 with
        current_tick :=
          ((s.dispatchStage.waitStage).chargeStage).2.current_tick + 1 }) = _
    rw [hw]
    unfold Scheduler.chargeStage
    dsimp only
    rw [hrun]
    dsimp only
    rw [he, hl3]
    dsimp only [Option.getD_some]
    rw [if_neg hnb, if_pos hpol, if_neg hs]

theorem rr_segment (n : Nat) (p : Int) :
    ∀ (j : Nat) (t : Scheduler) (q : PCB),
      1 ≤ j →
      t.policy = CPUPolicy.RR →
      t.quantum = (n : Int) →
      t.running_pid = some p →
      t.rr_slice_used = (n : Int) - (j : Int) →
      lookupP t.procs p = some q →
      q.estado = Estado.RUNNING →
      (j : Int) < q.rafaga_restante →
      (tickN j t).1 = List.replicate j (some p) ∧
      (tickN j t).2.running_pid = none ∧
      (tickN j t).2.rr_slice_used = 0 ∧
      (tickN j t).2.ready_q = t.ready_q ++ [p] ∧
      (tickN j t).2.current_tick = t.current_tick + (j : Int) ∧
      ∃ q2, lookupP (tickN j t).2.procs p = some q2 ∧
        q2.estado = Estado.READY ∧
        q2.rafaga_restante = q.rafaga_restante - (j : Int) ∧
        q2.espera_acumulada = q.espera_acumulada ∧
        q2.inicio_tick = q.inicio_tick ∧
        q2.fin_tick = q.fin_tick := by
  intro j
  induction j with
  | zero =>
      intro t q h1
      exact absurd h1 (by omega)
  | succ j ih =>
      intro t q _ hpol hq hrun hsl hlook hest hraf
      have hcast : ((Nat.succ j : Nat) : Int) = (j : Int) + 1 := by
        push_cast
        ring
      have hq1 : 1 < q.rafaga_restante := by
        rw [hcast] at hraf
        have : (0 : Int) ≤ (j : Int) := Int.natCast_nonneg j
        omega
      obtain ⟨hpre, hcont⟩ := tick_running_rr t p q hrun hlook hest hq1 hpol
      have hl2 : lookupP (mapVals bumpVal t.procs) p = some q := by
        rw [lookupP_mapVals, hlook]
        show some (bumpVal q) = some q
        rw [bumpVal_running hest]
      have hl3 : lookupP (updProc (mapVals bumpVal t.procs) p decBurst) p =
          some (decBurst q) := by
        rw [lookupP_updProc, if_pos rfl, hl2]
        rfl
      by_cases hj : j = 0
      · subst hj
        have hs : t.rr_slice_used + 1 ≥ t.quantum := by
          rw [hsl, hq, hcast]
          push_cast
          omega
        have htick := hpre hs
        have hto : tickN (Nat.succ 0) t = ([(t.tick).1], (t.tick).2) := rfl
        rw [hto, htick]
        refine ⟨rfl, rfl, rfl, rfl, ?_, ?_⟩
        · rw [hcast]
          push_cast
          ring
        · refine ⟨toReadyE (decBurst q), ?_, rfl, ?_, rfl, rfl, rfl⟩
          · rw [lookupP_updProc, if_pos rfl, hl3]
            rfl
          · show q.rafaga_restante - 1 = q.rafaga_restante - _
            rw [hcast]
            push_cast
            ring
      · have hsneg : ¬(t.rr_slice_used + 1 ≥ t.quantum) := by
          rw [hsl, hq, hcast]
          have : (1 : Int) ≤ (j : Int) := by
            have := Nat.one_le_iff_ne_zero.mpr hj
            exact_mod_cast this
          omega
        have htick := hcont hsneg
        have hih := ih
          { t with procs := updProc (mapVals bumpVal t.procs) p decBurst,
                   rr_slice_used := t.rr_slice_used + 1,
                   current_tick := t.current_tick + 1 }
          (decBurst q)
          (Nat.one_le_iff_ne_zero.mpr hj)
          hpol hq hrun
          (by show t.rr_slice_used + 1 = (n : Int) - (j : Int)
              rw [hsl, hcast]
              ring)
          hl3
          hest
          (by show (j : Int) < q.rafaga_restante - 1
              rw [hcast] at hraf
              omega)
        obtain ⟨g1, g2, g3, g4, g5, q2, hq2, e1, e2, e3, e4, e5⟩ := hih
        have hto : tickN (Nat.succ j) t =
            ((t.tick).1 :: (tickN j (t.tick).2).1, (tickN j (t.tick).2).2) :=
          rfl
        rw [hto, htick]
        refine ⟨?_, g2, g3, g4, ?_, q2, hq2, e1, ?_, e3, e4, e5⟩
        · rw [g1, List.replicate_succ]
        · rw [g5, hcast]
          show t.current_tick + 1 + (j : Int) = _
          ring
        · rw [e2, hcast]
          show q.rafaga_restante - 1 - (j : Int) = _
          ring

/-- Claim C3: under Round-Robin with quantum Q >= 1, a process at the
head of the ready queue whose remaining burst exceeds Q, dispatched
into a free CPU, is the pid returned by exactly the next Q consecutive
ticks; at the Q-th tick it is preempted: its estado becomes READY, it
is re-enqueued at the tail of the ready queue, and the CPU and slice
counter are released for the next dispatch. -/
theorem C3_rr_preemption (s : Scheduler) (p : Int) (pcb : PCB)
    (rest : List Int) (n : Nat)
    (hn : 1 ≤ n)
    (hpol : s.policy = CPUPolicy.RR)
    (hq : s.quantum = (n : Int))
    (hrun : s.running_pid = none)
    (hready : s.ready_q = p :: rest)
    (hlook : lookupP s.procs p = some pcb)
    (hburst : (n : Int) < pcb.rafaga_restante) :
    (tickN n s).1 = List.replicate n (some p) ∧
    (tickN n s).2.running_pid = none ∧
    (tickN n s).2.rr_slice_used = 0 ∧
    (tickN n s).2.ready_q = rest ++ [p] ∧
    (tickN n s).2.current_tick = s.current_tick + (n : Int) ∧
    ∃ pcb2, lookupP (tickN n s).2.procs p = some pcb2 ∧
      pcb2.estado = Estado.READY ∧
      pcb2.rafaga_restante = pcb.rafaga_restante - (n : Int) ∧
      pcb2.espera_acumulada = pcb.espera_acumulada ∧
      pcb2.fin_tick = pcb.fin_tick ∧
      pcb2.inicio_tick =
        (if pcb.inicio_tick = -1 then s.current_tick else pcb.inicio_tick) := by
  have hsch : s.schedule_next = (some p, { s with ready_q := rest }) := by
    unfold Scheduler.schedule_next
    rw [hpol, hrun, hready]
  have hd : s.dispatchStage =
      { s with ready_q := rest,
               procs := updProc (ensureP s.procs p) p
                 (toRunning s.current_tick),
               running_pid := some p, rr_slice_used := 0 } := by
    unfold Scheduler.dispatchStage
    rw [hrun]
    dsimp only
    rw [hsch]
  have hrun2 : s.dispatchStage.running_pid = some p := by rw [hd]
  have hts : s.tick = (s.dispatchStage).tick := by
    unfold Scheduler.tick
    rw [dispatchStage_running hrun2]
  have htkN : tickN n s = tickN n s.dispatchStage := by
    cases n with
    | zero => exact absurd hn (by omega)
    | succ m =>
        show ((s.tick).1 :: (tickN m (s.tick).2).1, (tickN m (s.tick).2).2)
          = _
        rw [hts]
        rfl
  rw [htkN, hd]
  have hl1 : lookupP (updProc (ensureP s.procs p) p
      (toRunning s.current_tick)) p = some (toRunning s.current_tick pcb) := by
    rw [lookupP_updProc, if_pos rfl, lookupP_ensureP p hlook]
    rfl
  obtain ⟨g1, g2, g3, g4, g5, q2, hq2, e1, e2, e3, e4, e5⟩ :=
    rr_segment n p n
      { s with ready_q := rest,
               procs := updProc (ensureP s.procs p) p
                 (toRunning s.current_tick),
               running_pid := some p, rr_slice_used := 0 }
      (toRunning s.current_tick pcb)
      hn hpol hq rfl
      (by show (0 : Int) = (n : Int) - (n : Int)
          ring)
      hl1 rfl hburst
  exact ⟨g1, g2, g3, g4, g5, q2, hq2, e1, e2, e3, e5, e4⟩

/-- Witness for C3: burst 3 under quantum 2 runs ticks 0 and 1, then is
preempted to the ready-queue tail. -/
theorem C3_witness :
    (tickN 2 C3s).1 = List.replicate 2 (some 1) ∧
    (tickN 2 C3s).2.ready_q = [] ++ [1] ∧
    (tickN 2 C3s).2.running_pid = none :=
  ⟨(C3_rr_preemption C3s 1 C3p [] 2 (by decide) (by decide) (by decide)
      (by decide) (by decide) (by decide) (by decide)).1,
   (C3_rr_preemption C3s 1 C3p [] 2 (by decide) (by decide) (by decide)
      (by decide) (by decide) (by decide) (by decide)).2.2.2.1,
   (C3_rr_preemption C3s 1 C3p [] 2 (by decide) (by decide) (by decide)
      (by decide) (by decide) (by decide) (by decide)).2.1⟩

theorem sjf_go (procs : List (Int × PCB)) :
    ∀ (acc : Int × Int),
      (procs.foldl sjf_step acc).2 ≤ acc.2 ∧
      (∀ kv ∈ procs, kv.2.estado = Estado.READY →
        (procs.foldl sjf_step acc).2 ≤ kv.2.rafaga_restante) ∧
      ((procs.foldl sjf_step acc) = acc ∨
        ∃ kv ∈ procs, kv.2.estado = Estado.READY ∧
          (procs.foldl sjf_step acc) = (kv.2.pid, kv.2.rafaga_restante)) := by
  induction procs with
  | nil =>
      intro acc
      exact ⟨le_refl _, by simp, Or.inl rfl⟩
  | cons kv rest ih =>
      intro acc
      by_cases hc : kv.2.estado = Estado.READY ∧ kv.2.rafaga_restante < acc.2
      · have hf : (kv :: rest).foldl sjf_step acc =
            rest.foldl sjf_step (kv.2.pid, kv.2.rafaga_restante) := by
          rw [List.foldl_cons]
          unfold sjf_step
          rw [if_pos hc]
        obtain ⟨i1, i2, i3⟩ := ih (kv.2.pid, kv.2.rafaga_restante)
        rw [hf]
        refine ⟨le_trans i1 (le_of_lt hc.2), ?_, ?_⟩
        · intro g hg hgr
          rcases List.mem_cons.mp hg with h | h
          · subst h
            exact i1
          · exact i2 g h hgr
        · rcases i3 with h | ⟨g, hg, hge, he⟩
          · exact Or.inr ⟨kv, List.mem_cons_self _ _, hc.1, h⟩
          · exact Or.inr ⟨g, List.mem_cons_of_mem _ hg, hge, he⟩
      · have hf : (kv :: rest).foldl sjf_step acc = rest.foldl sjf_step acc := by
          rw [List.foldl_cons]
          unfold sjf_step
          rw [if_neg hc]
        obtain ⟨i1, i2, i3⟩ := ih acc
        rw [hf]
        refine ⟨i1, ?_, ?_⟩
        · intro g hg hgr
          rcases List.mem_cons.mp hg with h | h
          · subst h
            have hnl : ¬g.2.rafaga_restante < acc.2 := fun hlt => hc ⟨hgr, hlt⟩
            exact le_trans i1 (le_of_not_lt hnl)
          · exact i2 g h hgr
        · rcases i3 with h | ⟨g, hg, hge, he⟩
          · exact Or.inl h
          · exact Or.inr ⟨g, List.mem_cons_of_mem _ hg, hge, he⟩

theorem sjf_best_spec (procs : List (Int × PCB))
    (hpid : ∀ kv ∈ procs, kv.2.pid = kv.1 ∧ 1 ≤ kv.1)
    (hex : ∃ kv ∈ procs, kv.2.estado = Estado.READY ∧
      kv.2.rafaga_restante < INT_MAX) :
    ∃ kv0 ∈ procs, kv0.2.estado = Estado.READY ∧
      sjf_best procs = (kv0.1, kv0.2.rafaga_restante) ∧
      kv0.1 ≠ -1 ∧
      (∀ kv ∈ procs, kv.2.estado = Estado.READY →
        kv0.2.rafaga_restante ≤ kv.2.rafaga_restante) := by
  obtain ⟨i1, i2, i3⟩ := sjf_go procs (-1, INT_MAX)
  rcases i3 with h | ⟨kv0, hkv0, hready, he⟩
  · exfalso
    obtain ⟨kv, hkv, hre, hlt⟩ := hex
    have h2 := i2 kv hkv hre
    rw [h] at h2
    exact absurd h2 (not_le.mpr hlt)
  · refine ⟨kv0, hkv0, hready, ?_, ?_, ?_⟩
    · show procs.foldl sjf_step (-1, INT_MAX) = _
      rw [he, (hpid kv0 hkv0).1]
    · have := (hpid kv0 hkv0).2
      omega
    · intro kv hkv hre
      have h2 := i2 kv hkv hre
      rw [he] at h2
      exact h2

theorem chargeStage_fst (s : Scheduler) : (s.chargeStage).1 = s.running_pid := by
  unfold Scheduler.chargeStage
  cases hr : s.running_pid with
  | none => rfl
  | some pid =>
      dsimp only
      split
      · rfl
      · split
        · split <;> rfl
        · rfl

theorem waitStage_running (s : Scheduler) :
    (s.waitStage).running_pid = s.running_pid := rfl

theorem tick_fst_running (s : Scheduler) :
    (s.tick).1 = s.dispatchStage.running_pid := by
  show (s.dispatchStage.waitStage.chargeStage).1 = _
  rw [chargeStage_fst, waitStage_running]

theorem tick_running_sjf (s : Scheduler) (p : Int) (q : PCB)
    (hrun : s.running_pid = some p)
    (hlook : lookupP s.procs p = some q)
    (hest : q.estado = Estado.RUNNING)
    (hpol : s.policy = CPUPolicy.SJF_NONPREEMPTIVE) :
    (1 < q.rafaga_restante →
      s.tick = (some p,
        { s with procs := updProc (mapVals bumpVal s.procs) p decBurst,
                 current_tick := s.current_tick + 1 })) ∧
    (q.rafaga_restante ≤ 1 →
      s.tick = (some p,
        { s with
          procs := updProc (updProc (mapVals bumpVal s.procs) p decBurst)
            p (toTerminated (s.current_tick + 1)),
          running_pid := none, rr_slice_used := 0,
          current_tick := s.current_tick + 1 })) := by
  have hl2 : lookupP (mapVals bumpVal s.procs) p = some q := by
    rw [lookupP_mapVals, hlook]
    show some (bumpVal q) = some q
    rw [bumpVal_running hest]
  have hw : s.dispatchStage.waitStage =
      { s with procs := mapVals bumpVal s.procs } := by
    rw [dispatchStage_running hrun]
    rfl
  have he : ensureP (mapVals bumpVal s.procs) p = mapVals bumpVal s.procs :=
    ensureP_of_some hl2
  have hl3 : lookupP (updProc (mapVals bumpVal s.procs) p decBurst) p =
      some (decBurst q) := by
    rw [lookupP_updProc, if_pos rfl, hl2]
    rfl
  have hnotrr : ¬(s.policy = CPUPolicy.RR) := by
    rw [hpol]
    exact fun h => nomatch h
  constructor
  · intro hraf
    have hnb : ¬((decBurst q).rafaga_restante ≤ 0) := by
      unfold decBurst
      dsimp only
      omega
    show (((s.dispatchStage.waitStage).chargeStage).1,
      { ((s.dispatchStage.waitStage).chargeStage).2 with
        current_tick :=
          ((s.dispatchStage.waitStage).chargeStage).2.current_tick + 1 }) = _
    rw [hw]
    unfold Scheduler.chargeStage
    dsimp only
    rw [hrun]
    dsimp only
    rw [he, hl3]
    dsimp only [Option.getD_some]
    rw [if_neg hnb, if_neg hnotrr]
  · intro hraf
    have hnb : (decBurst q).rafaga_restante ≤ 0 := by
      unfold decBurst
      dsimp only
      omega
    show (((s.dispatchStage.waitStage).chargeStage).1,
      { ((s.dispatchStage.waitStage).chargeStage).2 with
        current_tick :=
          ((s.dispatchStage.waitStage).chargeStage).2.current_tick + 1 }) = _
    rw [hw]
    unfold Scheduler.chargeStage
    dsimp only
    rw [hrun]
    dsimp only
    rw [he, hl3]
    dsimp only [Option.getD_some]
    rw [if_pos hnb]

/-- Claim C4 (counterexample): a READY process whose remaining burst is
exactly INT_MAX is never selected by the SJF scan (strict comparison
against the INT_MAX sentinel), so with the CPU free and a READY process
available, tick() dispatches nothing — refuting "when the CPU is free
tick() dispatches a process whose remaining-burst is minimal among all
processes currently in READY state" as stated. -/
theorem C4_counterexample :
    C4sched.policy = CPUPolicy.SJF_NONPREEMPTIVE ∧
    C4sched.running_pid = none ∧
    (∃ kv ∈ C4sched.procs, kv.2.estado = Estado.READY) ∧
    (C4sched.tick).1 = none ∧
    (C4sched.tick).2.running_pid = none := by
  decide

/-- Claim C4 (amended): under non-preemptive SJF, when the CPU is free
and some READY process has remaining-burst < INT_MAX, tick() dispatches
a READY process whose remaining-burst is minimal among all READY
processes; once a process is running it is the pid returned by every
tick, with its burst charged, until the burst reaches 0 (then it
terminates with fin_tick stamped) — it is never preempted by quantum,
and creating a new (even shorter) process touches neither the running
slot nor its record. -/
theorem C4_sjf :
    (∀ (s : Scheduler),
      s.policy = CPUPolicy.SJF_NONPREEMPTIVE →
      s.running_pid = none →
      (∀ kv ∈ s.procs, kv.2.pid = kv.1 ∧ 1 ≤ kv.1) →
      (∃ kv ∈ s.procs, kv.2.estado = Estado.READY ∧
        kv.2.rafaga_restante < INT_MAX) →
      ∃ kv0 ∈ s.procs, (s.tick).1 = some kv0.1 ∧
        kv0.2.estado = Estado.READY ∧
        (∀ kv ∈ s.procs, kv.2.estado = Estado.READY →
          kv0.2.rafaga_restante ≤ kv.2.rafaga_restante)) ∧
    (∀ (s : Scheduler) (p : Int) (q : PCB),
      s.policy = CPUPolicy.SJF_NONPREEMPTIVE →
      s.running_pid = some p →
      lookupP s.procs p = some q →
      q.estado = Estado.RUNNING →
      (s.tick).1 = some p ∧
      (1 < q.rafaga_restante →
        (s.tick).2.running_pid = some p ∧
        lookupP (s.tick).2.procs p = some (decBurst q)) ∧
      (q.rafaga_restante ≤ 1 →
        (s.tick).2.running_pid = none ∧
        ∃ q2, lookupP (s.tick).2.procs p = some q2 ∧
          q2.estado = Estado.TERMINATED ∧
          q2.fin_tick = s.current_tick + 1 ∧
          q2.rafaga_restante = q.rafaga_restante - 1)) ∧
    (∀ (s : Scheduler) (b np : Int) (tr : List Int) (p : Int),
      (s.newCmd b np tr).2.running_pid = s.running_pid ∧
      (p < s.next_pid →
        lookupP (s.newCmd b np tr).2.procs p = lookupP s.procs p)) := by
  refine ⟨?_, ?_, ?_⟩
  · intro s hpol hrun hpid hex
    obtain ⟨kv0, hkv0, hready, heq, hne, hmin⟩ := sjf_best_spec s.procs hpid hex
    have hsch : (s.schedule_next).1 = some kv0.1 := by
      unfold Scheduler.schedule_next
      rw [hpol]
      dsimp only
      rw [heq]
      dsimp only
      rw [if_pos hne]
    refine ⟨kv0, hkv0, ?_, hready, hmin⟩
    rw [tick_fst_running]
    unfold Scheduler.dispatchStage
    rw [hrun]
    dsimp only
    rw [hsch]
  · intro s p q hpol hrun hlook hest
    obtain ⟨hcont, hterm⟩ := tick_running_sjf s p q hrun hlook hest hpol
    refine ⟨?_, ?_, ?_⟩
    · rw [tick_fst_running, dispatchStage_running hrun, hrun]
    · intro hraf
      rw [hcont hraf]
      constructor
      · exact hrun
      · rw [lookupP_updProc, if_pos rfl, lookupP_mapVals, hlook]
        show some (decBurst (bumpVal q)) = some (decBurst q)
        rw [bumpVal_running hest]
    · intro hraf
      rw [hterm hraf]
      refine ⟨rfl, toTerminated (s.current_tick + 1) (decBurst q), ?_,
        rfl, rfl, rfl⟩
      rw [lookupP_updProc, if_pos rfl, lookupP_updProc, if_pos rfl,
        lookupP_mapVals, hlook]
      show some (toTerminated (s.current_tick + 1) (decBurst (bumpVal q))) = _
      rw [bumpVal_running hest]
  · intro s b np tr p
    constructor
    · show ((s.create_process b np tr).2.make_ready
        (s.create_process b np tr).1).running_pid = s.running_pid
      unfold Scheduler.make_ready
      cases hl : lookupP (s.create_process b np tr).2.procs
          (s.create_process b np tr).1 with
      | none => rfl
      | some w => rfl
    · intro hp
      have hne : p ≠ s.next_pid := by omega
      have hc : lookupP (s.create_process b np tr).2.procs p =
          lookupP s.procs p := by
        show lookupP (updProc (ensureP s.procs s.next_pid) s.next_pid _) p = _
        rw [lookupP_updProc, if_neg hne, lookupP_ensureP_ne hne]
      show lookupP ((s.create_process b np tr).2.make_ready
        (s.create_process b np tr).1).procs p = _
      unfold Scheduler.make_ready
      cases hl : lookupP (s.create_process b np tr).2.procs
          (s.create_process b np tr).1 with
      | none => exact hc
      | some w =>
          dsimp only
          rw [lookupP_updProc]
          have hne2 : p ≠ (s.create_process b np tr).1 := hne
          rw [if_neg hne2]
          exact hc

/-- Witness for C4: with bursts 3 and 1 READY under SJF, the dispatched
pid is that of a READY process with minimal remaining burst. -/
theorem C4_witness :
    ∃ kv0 ∈ C4w.procs, (C4w.tick).1 = some kv0.1 ∧
      kv0.2.estado = Estado.READY ∧
      (∀ kv ∈ C4w.procs, kv.2.estado = Estado.READY →
        kv0.2.rafaga_restante ≤ kv.2.rafaga_restante) :=
  C4_sjf.1 C4w (by decide) (by decide) (by decide) (by decide)

theorem updProc_updProc (l : List (Int × PCB)) (k : Int) (f g : PCB → PCB) :
    updProc (updProc l k f) k g = updProc l k (fun x => g (f x)) := by
  induction l with
  | nil => rfl
  | cons kv rest ih =>
      by_cases h : kv.1 = k
      · simp only [updProc, if_pos h, ih]
      · simp only [updProc, if_neg h, ih]

theorem updProc_append (l1 l2 : List (Int × PCB)) (k : Int) (f : PCB → PCB) :
    updProc (l1 ++ l2) k f = updProc l1 k f ++ updProc l2 k f := by
  induction l1 with
  | nil => rfl
  | cons kv rest ih =>
      simp only [List.cons_append, updProc]
      exact congrArg _ ih

theorem updProc_of_not_mem {l : List (Int × PCB)} {k : Int} (f : PCB → PCB)
    (h : k ∉ l.map Prod.fst) : updProc l k f = l := by
  induction l with
  | nil => rfl
  | cons kv rest ih =>
      simp only [List.map, List.mem_cons, not_or] at h
      show (if kv.1 = k then (kv.1, f kv.2) else kv) :: updProc rest k f = kv :: rest
      rw [if_neg (fun he : kv.1 = k => h.1 he.symm), ih h.2]

theorem mem_updProc {l : List (Int × PCB)} {k : Int} {f : PCB → PCB}
    {kv2 : Int × PCB} (h : kv2 ∈ updProc l k f) :
    ∃ kv ∈ l, kv2 = if kv.1 = k then (kv.1, f kv.2) else kv := by
  induction l with
  | nil => simp [updProc] at h
  | cons kv rest ih =>
      simp only [updProc, List.mem_cons] at h
      rcases h with h | h
      · exact ⟨kv, List.mem_cons_self _ _, h⟩
      · obtain ⟨kv3, hm, he⟩ := ih h
        exact ⟨kv3, List.mem_cons_of_mem _ hm, he⟩

theorem create_snd (s : Scheduler) (b np : Int) (tr : List Int) :
    (s.create_process b np tr).2 =
      { s with next_pid := s.next_pid + 1,
               procs := updProc (ensureP s.procs s.next_pid) s.next_pid
                 (fun _ => createdPCB s b np tr),
               ready_q := s.ready_q ++ [s.next_pid] } := rfl

theorem newCmd_snd (s : Scheduler) (b np : Int) (tr : List Int) :
    (s.newCmd b np tr).2 = (s.create_process b np tr).2 := by
  show (s.create_process b np tr).2.make_ready (s.create_process b np tr).1 = _
  unfold Scheduler.make_ready
  obtain ⟨v, hv⟩ := lookupP_ensureP_self s.procs s.next_pid
  have hlk : lookupP (s.create_process b np tr).2.procs s.next_pid
      = some (createdPCB s b np tr) := by
    show lookupP (updProc (ensureP s.procs s.next_pid) s.next_pid
      (fun _ => createdPCB s b np tr)) s.next_pid = _
    rw [lookupP_updProc, if_pos rfl, hv]
    rfl
  rw [show (s.create_process b np tr).1 = s.next_pid from rfl, hlk]
  dsimp only
  have hmem : s.next_pid ∈ (s.create_process b np tr).2.ready_q := by
    show s.next_pid ∈ s.ready_q ++ [s.next_pid]
    simp
  rw [if_pos hmem]
  have hpe : updProc (s.create_process b np tr).2.procs s.next_pid
      (fun p => if p.estado = Estado.NEW then { p with estado := Estado.READY }
                else p)
      = (s.create_process b np tr).2.procs := by
    show updProc (updProc (ensureP s.procs s.next_pid) s.next_pid
      (fun _ => createdPCB s b np tr)) s.next_pid _ = _
    rw [updProc_updProc]
    rfl
  rw [hpe]

theorem invS_running {s : Scheduler} (h : InvS s) {k : Int}
    (hr : s.running_pid = some k) :
    estadoOf s.procs k = some Estado.RUNNING ∧ k ∉ s.ready_q := by
  refine h.2.2.2.1 k ?_
  rw [hr]
  exact List.mem_cons_self _ _

theorem bumpVal_pid (p : PCB) : (bumpVal p).pid = p.pid := by
  unfold bumpVal
  split <;> rfl

theorem bumpVal_estado (p : PCB) : (bumpVal p).estado = p.estado := by
  unfold bumpVal
  split <;> rfl

theorem bumpVal_not_ready {p : PCB} (h : p.estado ≠ Estado.READY) :
    bumpVal p = p := by
  unfold bumpVal
  rw [if_neg h]

theorem sjf_best_ready {procs : List (Int × PCB)}
    (h : (sjf_best procs).1 ≠ -1) :
    ∃ kv ∈ procs, kv.2.estado = Estado.READY ∧
      kv.2.pid = (sjf_best procs).1 := by
  obtain ⟨i1, i2, i3⟩ := sjf_go procs (-1, INT_MAX)
  rcases i3 with hc | ⟨kv, hkv, hre, he⟩
  · exact absurd (congrArg Prod.fst hc) h
  · exact ⟨kv, hkv, hre, (congrArg Prod.fst he).symm⟩

theorem dispatchStage_of_running {s : Scheduler} {r : Int}
    (hr : s.running_pid = some r) : s.dispatchStage = s := by
  unfold Scheduler.dispatchStage
  rw [hr]

theorem dispatchStage_rr_nil {s : Scheduler}
    (hr : s.running_pid = none) (hp : s.policy = CPUPolicy.RR)
    (hq : s.ready_q = []) : s.dispatchStage = s := by
  unfold Scheduler.dispatchStage Scheduler.schedule_next
  rw [hr, hp, hq]

theorem dispatchStage_rr_cons {s : Scheduler} {pid : Int} {rest : List Int}
    (hr : s.running_pid = none) (hp : s.policy = CPUPolicy.RR)
    (hq : s.ready_q = pid :: rest) :
    s.dispatchStage =
      { s with ready_q := rest, running_pid := some pid,
               procs := updProc (ensureP s.procs pid) pid
                 (toRunning s.current_tick),
               rr_slice_used := 0 } := by
  unfold Scheduler.dispatchStage Scheduler.schedule_next
  rw [hr, hp, hq]

theorem dispatchStage_sjf_none {s : Scheduler}
    (hr : s.running_pid = none) (hp : s.policy = CPUPolicy.SJF_NONPREEMPTIVE)
    (hb : (sjf_best s.procs).1 = -1) : s.dispatchStage = s := by
  have h1 : s.schedule_next = (none, s) := by
    unfold Scheduler.schedule_next
    rw [hp]
    dsimp only
    rw [if_neg (fun hne => hne hb)]
  unfold Scheduler.dispatchStage
  rw [hr, h1]

theorem dispatchStage_sjf_some {s : Scheduler}
    (hr : s.running_pid = none) (hp : s.policy = CPUPolicy.SJF_NONPREEMPTIVE)
    (hb : (sjf_best s.procs).1 ≠ -1) :
    s.dispatchStage =
      { s with ready_q := eraseAllInt s.ready_q (sjf_best s.procs).1,
               running_pid := some (sjf_best s.procs).1,
               procs := updProc (ensureP s.procs (sjf_best s.procs).1)
                 (sjf_best s.procs).1 (toRunning s.current_tick),
               rr_slice_used := 0 } := by
  have h1 : s.schedule_next = ((some (sjf_best s.procs).1 : Option Int),
      { s with ready_q := eraseAllInt s.ready_q (sjf_best s.procs).1 }) := by
    unfold Scheduler.schedule_next
    rw [hp]
    dsimp only
    rw [if_pos hb]
  unfold Scheduler.dispatchStage
  rw [hr, h1]

theorem estadoOf_some {procs : List (Int × PCB)} {k : Int} {e : Estado}
    (h : estadoOf procs k = some e) :
    ∃ v, lookupP procs k = some v ∧ v.estado = e := by
  unfold estadoOf at h
  cases hl : lookupP procs k with
  | none =>
      rw [hl] at h
      simp at h
  | some v =>
      rw [hl] at h
      exact ⟨v, rfl, Option.some.inj h⟩

theorem estadoOf_updProc_ne {procs : List (Int × PCB)} {k j : Int}
    (f : PCB → PCB) (h : j ≠ k) :
    estadoOf (updProc procs k f) j = estadoOf procs j := by
  unfold estadoOf
  rw [lookupP_updProc, if_neg h]

theorem estadoOf_mapVals {procs : List (Int × PCB)} (j : Int)
    (g : PCB → PCB) (hg : ∀ p, (g p).estado = p.estado) :
    estadoOf (mapVals g procs) j = estadoOf procs j := by
  unfold estadoOf
  rw [lookupP_mapVals]
  cases lookupP procs j with
  | none => rfl
  | some v => simp [hg]

theorem updProc_pid_bound {procs : List (Int × PCB)} {np : Int}
    (hpf : ∀ kv ∈ procs, kv.2.pid = kv.1 ∧ 1 ≤ kv.1 ∧ kv.1 < np)
    (k : Int) (f : PCB → PCB) (hf : ∀ p, (f p).pid = p.pid) :
    ∀ kv ∈ updProc procs k f, kv.2.pid = kv.1 ∧ 1 ≤ kv.1 ∧ kv.1 < np := by
  intro kv2 hm
  obtain ⟨kv, hkv, he⟩ := mem_updProc hm
  by_cases hc : kv.1 = k
  · rw [if_pos hc] at he
    subst he
    refine ⟨?_, (hpf kv hkv).2⟩
    rw [hf]
    exact (hpf kv hkv).1
  · rw [if_neg hc] at he
    rw [he]
    exact hpf kv hkv

theorem mapVals_pid_bound {procs : List (Int × PCB)} {np : Int}
    (hpf : ∀ kv ∈ procs, kv.2.pid = kv.1 ∧ 1 ≤ kv.1 ∧ kv.1 < np)
    (g : PCB → PCB) (hg : ∀ p, (g p).pid = p.pid) :
    ∀ kv ∈ mapVals g procs, kv.2.pid = kv.1 ∧ 1 ≤ kv.1 ∧ kv.1 < np := by
  intro kv2 hm
  obtain ⟨kv, hkv, he⟩ := List.mem_map.mp hm
  subst he
  refine ⟨?_, (hpf kv hkv).2⟩
  show (g kv.2).pid = kv.1
  rw [hg]
  exact (hpf kv hkv).1

theorem InvS_dispatched {s : Scheduler} (pid : Int) (rq2 : List Int)
    (h : InvS s)
    (hes : estadoOf s.procs pid = some Estado.READY)
    (hsub : ∀ k, k ∈ rq2 → k ∈ s.ready_q ∧ k ≠ pid)
    (hnd2 : rq2.Nodup) :
    InvS { s with ready_q := rq2, running_pid := some pid,
                  procs := updProc (ensureP s.procs pid) pid
                    (toRunning s.current_tick),
                  rr_slice_used := 0 } := by
  obtain ⟨v, hv, hve⟩ := estadoOf_some hes
  rw [ensureP_of_some hv]
  refine ⟨?_, ?_, ?_, ?_, hnd2, h.2.2.2.2.2⟩
  · show ((updProc s.procs pid (toRunning s.current_tick)).map Prod.fst).Nodup
    rw [updProc_keys]
    exact h.1
  · show ∀ kv ∈ updProc s.procs pid (toRunning s.current_tick),
      kv.2.pid = kv.1 ∧ 1 ≤ kv.1 ∧ kv.1 < s.next_pid
    exact updProc_pid_bound h.2.1 pid _ (fun p => rfl)
  · intro k hk
    obtain ⟨hk1, hk2⟩ := hsub k hk
    show estadoOf (updProc s.procs pid (toRunning s.current_tick)) k
      = some Estado.READY
    rw [estadoOf_updProc_ne _ hk2]
    exact h.2.2.1 k hk1
  · intro k hk
    have hkp : k = pid := by simpa using hk
    refine ⟨?_, ?_⟩
    · show estadoOf (updProc s.procs pid (toRunning s.current_tick)) k
        = some Estado.RUNNING
      unfold estadoOf
      rw [lookupP_updProc, if_pos hkp, hv]
      rfl
    · rw [hkp]
      exact fun hc => (hsub pid hc).2 rfl

theorem dispatchStage_invs {s : Scheduler} (h : InvS s) :
    InvS s.dispatchStage ∧
    (∀ k, s.dispatchStage.running_pid = some k →
      s.running_pid = some k ∨ estadoOf s.procs k = some Estado.READY) ∧
    (∀ k, k ∈ s.dispatchStage.ready_q → k ∈ s.ready_q) ∧
    (∀ k, estadoOf s.procs k ≠ some Estado.READY →
      lookupP s.dispatchStage.procs k = lookupP s.procs k) := by
  cases hr : s.running_pid with
  | some r =>
      rw [dispatchStage_of_running hr]
      exact ⟨h, fun k hk => Or.inl (hr ▸ hk), fun k hk => hk, fun k _ => rfl⟩
  | none =>
      cases hp : s.policy with
      | RR =>
          cases hq : s.ready_q with
          | nil =>
              rw [dispatchStage_rr_nil hr hp hq]
              exact ⟨h, fun k hk => Option.noConfusion (hr.symm.trans hk),
                fun k hk => hq ▸ hk, fun k _ => rfl⟩
          | cons pid rest =>
              have hmem : pid ∈ s.ready_q := by
                rw [hq]
                exact List.mem_cons_self _ _
              have hes : estadoOf s.procs pid = some Estado.READY :=
                h.2.2.1 pid hmem
              have hnodup : (pid :: rest).Nodup := by
                have h5 := h.2.2.2.2.1
                rw [hq] at h5
                exact h5
              have hnotr : pid ∉ rest := (List.nodup_cons.mp hnodup).1
              rw [dispatchStage_rr_cons hr hp hq]
              refine ⟨?_, ?_, ?_, ?_⟩
              · exact InvS_dispatched pid rest h hes
                  (fun k hk => ⟨by rw [hq] ; exact List.mem_cons_of_mem _ hk,
                    fun he => hnotr (he ▸ hk)⟩)
                  (List.nodup_cons.mp hnodup).2
              · intro k hk
                have h2 : some pid = some k := hk
                exact Or.inr (Option.some.inj h2 ▸ hes)
              · intro k hk
                have hk2 : k ∈ rest := hk
                exact List.mem_cons_of_mem _ hk2
              · intro k hke
                have hkp : k ≠ pid := fun he => hke (he ▸ hes)
                show lookupP (updProc (ensureP s.procs pid) pid
                  (toRunning s.current_tick)) k = lookupP s.procs k
                rw [lookupP_updProc, if_neg hkp, lookupP_ensureP_ne hkp]
      | SJF_NONPREEMPTIVE =>
          by_cases hb : (sjf_best s.procs).1 = -1
          · rw [dispatchStage_sjf_none hr hp hb]
            exact ⟨h, fun k hk => Option.noConfusion (hr.symm.trans hk),
              fun k hk => hk, fun k _ => rfl⟩
          · obtain ⟨kv, hkv, hre, hpb⟩ := sjf_best_ready hb
            have hkey : kv.1 = (sjf_best s.procs).1 := by
              rw [← (h.2.1 kv hkv).1, hpb]
            have hlk : lookupP s.procs (sjf_best s.procs).1 = some kv.2 := by
              rw [← hkey]
              exact lookupP_of_mem_nodup h.1 hkv
            have hes : estadoOf s.procs (sjf_best s.procs).1
                = some Estado.READY := by
              unfold estadoOf
              rw [hlk]
              show some kv.2.estado = some Estado.READY
              rw [hre]
            rw [dispatchStage_sjf_some hr hp hb]
            refine ⟨?_, ?_, ?_, ?_⟩
            · exact InvS_dispatched (sjf_best s.procs).1
                (eraseAllInt s.ready_q (sjf_best s.procs).1) h hes
                (fun k hk => mem_eraseAllInt.mp hk)
                (eraseAllInt_nodup _ h.2.2.2.2.1)
            · intro k hk
              have h2 : some (sjf_best s.procs).1 = some k := hk
              exact Or.inr (Option.some.inj h2 ▸ hes)
            · intro k hk
              exact (mem_eraseAllInt.mp hk).1
            · intro k hke
              have hkp : k ≠ (sjf_best s.procs).1 := fun he => hke (he ▸ hes)
              show lookupP (updProc (ensureP s.procs (sjf_best s.procs).1)
                (sjf_best s.procs).1 (toRunning s.current_tick)) k
                = lookupP s.procs k
              rw [lookupP_updProc, if_neg hkp, lookupP_ensureP_ne hkp]

theorem estadoOf_congr {procs1 procs2 : List (Int × PCB)} {k : Int}
    (h : lookupP procs1 k = lookupP procs2 k) :
    estadoOf procs1 k = estadoOf procs2 k := by
  unfold estadoOf
  rw [h]

theorem mem_option_toList {o : Option Int} {k : Int} (h : k ∈ o.toList) :
    o = some k := by
  cases o with
  | none => simp at h
  | some a =>
      simp at h
      rw [h]

theorem invS_key_lt {s : Scheduler} (h : InvS s) {k : Int} {v : PCB}
    (hv : lookupP s.procs k = some v) : 1 ≤ k ∧ k < s.next_pid := by
  have hm := mem_keys_of_lookupP hv
  obtain ⟨kv, hkv, hfst⟩ := List.mem_map.mp hm
  have h2 := (h.2.1 kv hkv).2
  rw [hfst] at h2
  exact h2

theorem createdPCB_pid (s : Scheduler) (b np : Int) (tr : List Int) :
    (createdPCB s b np tr).pid = s.next_pid := by
  unfold createdPCB
  dsimp only
  split <;> rfl

theorem createdPCB_estado (s : Scheduler) (b np : Int) (tr : List Int) :
    (createdPCB s b np tr).estado = Estado.READY := rfl

theorem chargeStage_cases (s : Scheduler) :
    (s.running_pid = none ∧ s.chargeStage = (none, s)) ∨
    ∃ pid v, s.running_pid = some pid ∧
      lookupP (ensureP s.procs pid) pid = some v ∧
      ((decBurst v).rafaga_restante ≤ 0 ∧
        s.chargeStage = (some pid, { s with
          procs := updProc (updProc (ensureP s.procs pid) pid decBurst) pid
            (toTerminated (s.current_tick + 1)),
          running_pid := none, rr_slice_used := 0 }) ∨
       ¬(decBurst v).rafaga_restante ≤ 0 ∧ s.policy = CPUPolicy.RR ∧
         s.rr_slice_used + 1 ≥ s.quantum ∧
        s.chargeStage = (some pid, { s with
          procs := updProc (updProc (ensureP s.procs pid) pid decBurst) pid
            toReadyE,
          ready_q := s.ready_q ++ [pid],
          running_pid := none, rr_slice_used := 0 }) ∨
       ¬(decBurst v).rafaga_restante ≤ 0 ∧ s.policy = CPUPolicy.RR ∧
         ¬s.rr_slice_used + 1 ≥ s.quantum ∧
        s.chargeStage = (some pid, { s with
          procs := updProc (ensureP s.procs pid) pid decBurst,
          rr_slice_used := s.rr_slice_used + 1 }) ∨
       ¬(decBurst v).rafaga_restante ≤ 0 ∧ s.policy ≠ CPUPolicy.RR ∧
        s.chargeStage = (some pid, { s with
          procs := updProc (ensureP s.procs pid) pid decBurst })) := by
  unfold Scheduler.chargeStage
  cases hr : s.running_pid with
  | none => exact Or.inl ⟨rfl, rfl⟩
  | some pid =>
      dsimp only
      obtain ⟨v, hv⟩ := lookupP_ensureP_self s.procs pid
      have h2 : lookupP (updProc (ensureP s.procs pid) pid decBurst) pid =
          some (decBurst v) := by
        rw [lookupP_updProc, if_pos rfl, hv]
        rfl
      refine Or.inr ⟨pid, v, rfl, hv, ?_⟩
      rw [h2]
      simp only [Option.getD_some]
      by_cases hb : (decBurst v).rafaga_restante ≤ 0
      · rw [if_pos hb]
        exact Or.inl ⟨hb, rfl⟩
      · rw [if_neg hb]
        by_cases hp : s.policy = CPUPolicy.RR
        · rw [if_pos hp]
          by_cases hs : s.rr_slice_used + 1 ≥ s.quantum
          · rw [if_pos hs]
            exact Or.inr (Or.inl ⟨hb, hp, hs, rfl⟩)
          · rw [if_neg hs]
            exact Or.inr (Or.inr (Or.inl ⟨hb, hp, hs, rfl⟩))
        · rw [if_neg hp]
          exact Or.inr (Or.inr (Or.inr ⟨hb, hp, rfl⟩))

theorem chargeStage_frame {s : Scheduler} {k : Int}
    (hrk : s.running_pid ≠ some k) :
    lookupP (s.chargeStage).2.procs k = lookupP s.procs k ∧
    (s.chargeStage).2.running_pid ≠ some k ∧
    (k ∈ (s.chargeStage).2.ready_q → k ∈ s.ready_q) := by
  rcases chargeStage_cases s with ⟨hr, he⟩ | ⟨pid, v, hr, hv, hc⟩
  · rw [he]
    exact ⟨rfl, hrk, fun hk => hk⟩
  · have hkp : k ≠ pid := fun he2 => hrk (by rw [he2] ; exact hr)
    rcases hc with ⟨hb, he⟩ | ⟨hb, hp, hs, he⟩ | ⟨hb, hp, hs, he⟩ |
      ⟨hb, hp, he⟩
    · rw [he]
      refine ⟨?_, ?_, fun hk => hk⟩
      · show lookupP (updProc (updProc (ensureP s.procs pid) pid decBurst)
          pid (toTerminated (s.current_tick + 1))) k = lookupP s.procs k
        rw [lookupP_updProc, if_neg hkp, lookupP_updProc, if_neg hkp,
          lookupP_ensureP_ne hkp]
      · exact fun hc2 =>
          Option.noConfusion (show (none : Option Int) = some k from hc2)
    · rw [he]
      refine ⟨?_, ?_, ?_⟩
      · show lookupP (updProc (updProc (ensureP s.procs pid) pid decBurst)
          pid toReadyE) k = lookupP s.procs k
        rw [lookupP_updProc, if_neg hkp, lookupP_updProc, if_neg hkp,
          lookupP_ensureP_ne hkp]
      · exact fun hc2 =>
          Option.noConfusion (show (none : Option Int) = some k from hc2)
      · intro hk
        have hk2 : k ∈ s.ready_q ++ [pid] := hk
        rcases List.mem_append.mp hk2 with h3 | h3
        · exact h3
        · exact absurd (List.mem_singleton.mp h3) hkp
    · rw [he]
      refine ⟨?_, ?_, fun hk => hk⟩
      · show lookupP (updProc (ensureP s.procs pid) pid decBurst) k
          = lookupP s.procs k
        rw [lookupP_updProc, if_neg hkp, lookupP_ensureP_ne hkp]
      · exact fun hc2 => hrk hc2
    · rw [he]
      refine ⟨?_, ?_, fun hk => hk⟩
      · show lookupP (updProc (ensureP s.procs pid) pid decBurst) k
          = lookupP s.procs k
        rw [lookupP_updProc, if_neg hkp, lookupP_ensureP_ne hkp]
      · exact fun hc2 => hrk hc2

theorem waitStage_invs {s : Scheduler} (h : InvS s) :
    InvS s.waitStage ∧
    (∀ k, estadoOf s.procs k ≠ some Estado.READY →
      lookupP s.waitStage.procs k = lookupP s.procs k) := by
  constructor
  · refine ⟨?_, ?_, ?_, ?_, h.2.2.2.2.1, h.2.2.2.2.2⟩
    · show ((mapVals bumpVal s.procs).map Prod.fst).Nodup
      rw [mapVals_keys]
      exact h.1
    · show ∀ kv ∈ mapVals bumpVal s.procs,
        kv.2.pid = kv.1 ∧ 1 ≤ kv.1 ∧ kv.1 < s.next_pid
      exact mapVals_pid_bound h.2.1 bumpVal bumpVal_pid
    · intro k hk
      show estadoOf (mapVals bumpVal s.procs) k = some Estado.READY
      rw [estadoOf_mapVals k bumpVal bumpVal_estado]
      exact h.2.2.1 k hk
    · intro k hk
      have hk2 : k ∈ s.running_pid.toList := hk
      refine ⟨?_, ?_⟩
      · show estadoOf (mapVals bumpVal s.procs) k = some Estado.RUNNING
        rw [estadoOf_mapVals k bumpVal bumpVal_estado]
        exact (h.2.2.2.1 k hk2).1
      · exact (h.2.2.2.1 k hk2).2
  · intro k hke
    show lookupP (mapVals bumpVal s.procs) k = lookupP s.procs k
    rw [lookupP_mapVals]
    cases hl : lookupP s.procs k with
    | none => rfl
    | some v =>
        have hv : v.estado ≠ Estado.READY := by
          intro hc
          apply hke
          unfold estadoOf
          rw [hl]
          show some v.estado = some Estado.READY
          rw [hc]
        show some (bumpVal v) = some v
        rw [bumpVal_not_ready hv]

theorem ready_estado_pres {s : Scheduler} (h : InvS s) {pid : Int}
    (hnq : pid ∉ s.ready_q) (f : PCB → PCB) :
    ∀ k ∈ s.ready_q, estadoOf (updProc s.procs pid f) k
      = some Estado.READY := by
  intro k hk
  have hkpid : k ≠ pid := fun he2 => hnq (he2 ▸ hk)
  rw [estadoOf_updProc_ne _ hkpid]
  exact h.2.2.1 k hk

theorem InvS_chargeStage {s : Scheduler} (h : InvS s) :
    InvS (s.chargeStage).2 := by
  rcases chargeStage_cases s with ⟨hr, he⟩ | ⟨pid, v, hr, hv, hc⟩
  · rw [he]
    exact h
  · obtain ⟨hes, hnq⟩ := invS_running h hr
    obtain ⟨w, hw, hwe⟩ := estadoOf_some hes
    rcases hc with ⟨hb, he⟩ | ⟨hb, hp, hs2, he⟩ | ⟨hb, hp, hs2, he⟩ |
      ⟨hb, hp, he⟩
    · rw [he, ensureP_of_some hw, updProc_updProc]
      refine ⟨?_, ?_, ?_, ?_, h.2.2.2.2.1, h.2.2.2.2.2⟩
      · show ((updProc s.procs pid
          (fun x => toTerminated (s.current_tick + 1) (decBurst x))).map
            Prod.fst).Nodup
        rw [updProc_keys]
        exact h.1
      · exact updProc_pid_bound h.2.1 pid _ (fun p => rfl)
      · exact ready_estado_pres h hnq _
      · intro k hk
        have hk2 : k ∈ (none : Option Int).toList := hk
        simp at hk2
    · rw [he, ensureP_of_some hw, updProc_updProc]
      refine ⟨?_, ?_, ?_, ?_, ?_, h.2.2.2.2.2⟩
      · show ((updProc s.procs pid
          (fun x => toReadyE (decBurst x))).map Prod.fst).Nodup
        rw [updProc_keys]
        exact h.1
      · exact updProc_pid_bound h.2.1 pid _ (fun p => rfl)
      · intro k hk
        have hk2 : k ∈ s.ready_q ++ [pid] := hk
        rcases List.mem_append.mp hk2 with h3 | h3
        · exact ready_estado_pres h hnq _ k h3
        · have hkp := List.mem_singleton.mp h3
          rw [hkp]
          show estadoOf (updProc s.procs pid
            (fun x => toReadyE (decBurst x))) pid = some Estado.READY
          unfold estadoOf
          rw [lookupP_updProc, if_pos rfl, hw]
          rfl
      · intro k hk
        have hk2 : k ∈ (none : Option Int).toList := hk
        simp at hk2
      · show (s.ready_q ++ [pid]).Nodup
        refine List.nodup_append.mpr ⟨h.2.2.2.2.1, List.nodup_singleton _, ?_⟩
        exact fun a ha hb2 => hnq ((List.mem_singleton.mp hb2) ▸ ha)
    · rw [he, ensureP_of_some hw]
      refine ⟨?_, ?_, ?_, ?_, h.2.2.2.2.1, h.2.2.2.2.2⟩
      · show ((updProc s.procs pid decBurst).map Prod.fst).Nodup
        rw [updProc_keys]
        exact h.1
      · exact updProc_pid_bound h.2.1 pid _ (fun p => rfl)
      · exact ready_estado_pres h hnq _
      · intro k hk
        have hk2 : k ∈ s.running_pid.toList := hk
        have hsk : s.running_pid = some k := mem_option_toList hk2
        have hkpid : k = pid := Option.some.inj (hsk.symm.trans hr)
        rw [hkpid]
        refine ⟨?_, hnq⟩
        show estadoOf (updProc s.procs pid decBurst) pid
          = some Estado.RUNNING
        unfold estadoOf
        rw [lookupP_updProc, if_pos rfl, hw]
        show some (decBurst w).estado = some Estado.RUNNING
        rw [show (decBurst w).estado = w.estado from rfl, hwe]
    · rw [he, ensureP_of_some hw]
      refine ⟨?_, ?_, ?_, ?_, h.2.2.2.2.1, h.2.2.2.2.2⟩
      · show ((updProc s.procs pid decBurst).map Prod.fst).Nodup
        rw [updProc_keys]
        exact h.1
      · exact updProc_pid_bound h.2.1 pid _ (fun p => rfl)
      · exact ready_estado_pres h hnq _
      · intro k hk
        have hk2 : k ∈ s.running_pid.toList := hk
        have hsk : s.running_pid = some k := mem_option_toList hk2
        have hkpid : k = pid := Option.some.inj (hsk.symm.trans hr)
        rw [hkpid]
        refine ⟨?_, hnq⟩
        show estadoOf (updProc s.procs pid decBurst) pid
          = some Estado.RUNNING
        unfold estadoOf
        rw [lookupP_updProc, if_pos rfl, hw]
        show some (decBurst w).estado = some Estado.RUNNING
        rw [show (decBurst w).estado = w.estado from rfl, hwe]

theorem InvS_tick {s : Scheduler} (h : InvS s) : InvS (s.tick).2 := by
  have h3 := InvS_chargeStage (waitStage_invs (dispatchStage_invs h).1).1
  exact h3

theorem InvS_set_policy {s : Scheduler} (h : InvS s) (pol : CPUPolicy)
    (qq : Int) : InvS (s.set_policy pol qq) := by
  refine ⟨h.1, h.2.1, h.2.2.1, ?_, h.2.2.2.2.1, h.2.2.2.2.2⟩
  intro k hk
  have hk2 : k ∈ (none : Option Int).toList := hk
  simp at hk2

theorem InvS_kill {s : Scheduler} (h : InvS s) (q0 : Int) :
    InvS (s.kill_process q0).2 := by
  unfold Scheduler.kill_process
  cases hlk : lookupP s.procs q0 with
  | none => exact h
  | some u =>
      dsimp only
      by_cases hrq0 : s.running_pid = some q0
      · rw [if_pos hrq0]
        refine ⟨?_, ?_, ?_, ?_, ?_, h.2.2.2.2.2⟩
        · show ((updProc s.procs q0
            (toTerminated s.current_tick)).map Prod.fst).Nodup
          rw [updProc_keys]
          exact h.1
        · exact updProc_pid_bound h.2.1 q0 _ (fun p => rfl)
        · intro k hk
          have hk2 := mem_eraseAllInt.mp hk
          show estadoOf (updProc s.procs q0 (toTerminated s.current_tick)) k
            = some Estado.READY
          rw [estadoOf_updProc_ne _ hk2.2]
          exact h.2.2.1 k hk2.1
        · intro k hk
          have hk2 : k ∈ (none : Option Int).toList := hk
          simp at hk2
        · exact eraseAllInt_nodup _ h.2.2.2.2.1
      · rw [if_neg hrq0]
        refine ⟨?_, ?_, ?_, ?_, ?_, h.2.2.2.2.2⟩
        · show ((updProc s.procs q0
            (toTerminated s.current_tick)).map Prod.fst).Nodup
          rw [updProc_keys]
          exact h.1
        · exact updProc_pid_bound h.2.1 q0 _ (fun p => rfl)
        · intro k hk
          have hk2 := mem_eraseAllInt.mp hk
          show estadoOf (updProc s.procs q0 (toTerminated s.current_tick)) k
            = some Estado.READY
          rw [estadoOf_updProc_ne _ hk2.2]
          exact h.2.2.1 k hk2.1
        · intro k hk
          have hk2 : k ∈ s.running_pid.toList := hk
          have hsk : s.running_pid = some k := mem_option_toList hk2
          have hkq : k ≠ q0 := fun he2 => hrq0 (he2 ▸ hsk)
          refine ⟨?_, ?_⟩
          · show estadoOf (updProc s.procs q0
              (toTerminated s.current_tick)) k = some Estado.RUNNING
            rw [estadoOf_updProc_ne _ hkq]
            exact (h.2.2.2.1 k hk2).1
          · intro hc
            exact (h.2.2.2.1 k hk2).2 (mem_eraseAllInt.mp hc).1
        · exact eraseAllInt_nodup _ h.2.2.2.2.1

theorem next_pid_fresh {s : Scheduler} (h : InvS s) :
    s.next_pid ∉ s.procs.map Prod.fst := by
  intro hc
  obtain ⟨kv, hkv, hfst⟩ := List.mem_map.mp hc
  have h2 := (h.2.1 kv hkv).2.2
  rw [hfst] at h2
  exact lt_irrefl _ h2

theorem createdPCB_insert {s : Scheduler} (h : InvS s) (b np : Int)
    (tr : List Int) :
    updProc (ensureP s.procs s.next_pid) s.next_pid
      (fun _ => createdPCB s b np tr)
    = s.procs ++ [(s.next_pid, createdPCB s b np tr)] := by
  have hnpid := next_pid_fresh h
  have hlkn : lookupP s.procs s.next_pid = none :=
    lookupP_none_of_not_mem hnpid
  have hE : ensureP s.procs s.next_pid
      = s.procs ++ [(s.next_pid, PCB.build 0 0 0 4)] := by
    unfold ensureP
    rw [hlkn]
  rw [hE, updProc_append, updProc_of_not_mem _ hnpid]
  show s.procs ++ ((if s.next_pid = s.next_pid
      then (s.next_pid, createdPCB s b np tr)
      else (s.next_pid, PCB.build 0 0 0 4)) :: updProc [] s.next_pid
        (fun _ => createdPCB s b np tr)) = _
  rw [if_pos rfl]
  rfl

theorem newCmd_snd_eq {s : Scheduler} (h : InvS s) (b np : Int)
    (tr : List Int) :
    (s.newCmd b np tr).2 =
      { s with next_pid := s.next_pid + 1,
               procs := s.procs ++ [(s.next_pid, createdPCB s b np tr)],
               ready_q := s.ready_q ++ [s.next_pid] } := by
  rw [newCmd_snd, create_snd, createdPCB_insert h]

theorem InvS_newCmd {s : Scheduler} (h : InvS s) (b np : Int)
    (tr : List Int) : InvS (s.newCmd b np tr).2 := by
  have hnpid := next_pid_fresh h
  have hlkn : lookupP s.procs s.next_pid = none :=
    lookupP_none_of_not_mem hnpid
  rw [newCmd_snd_eq h]
  refine ⟨?_, ?_, ?_, ?_, ?_, ?_⟩
  · show ((s.procs ++ [(s.next_pid, createdPCB s b np tr)]).map
      Prod.fst).Nodup
    rw [List.map_append]
    refine List.nodup_append.mpr ⟨h.1, ?_, ?_⟩
    · show ([s.next_pid] : List Int).Nodup
      exact List.nodup_singleton _
    · intro a ha hb2
      have ha2 : a = s.next_pid := by simpa using hb2
      exact hnpid (ha2 ▸ ha)
  · show ∀ kv ∈ s.procs ++ [(s.next_pid, createdPCB s b np tr)],
      kv.2.pid = kv.1 ∧ 1 ≤ kv.1 ∧ kv.1 < s.next_pid + 1
    intro kv hkv
    rcases List.mem_append.mp hkv with h3 | h3
    · obtain ⟨h4, h5, h6⟩ := h.2.1 kv h3
      exact ⟨h4, h5, by omega⟩
    · have h4 : kv = (s.next_pid, createdPCB s b np tr) := by
        simpa using h3
      rw [h4]
      exact ⟨createdPCB_pid s b np tr, h.2.2.2.2.2, by omega⟩
  · intro k hk
    rcases List.mem_append.mp hk with h3 | h3
    · have hre := h.2.2.1 k h3
      obtain ⟨v, hv, hve⟩ := estadoOf_some hre
      show estadoOf (s.procs ++ [(s.next_pid, createdPCB s b np tr)]) k
        = some Estado.READY
      unfold estadoOf
      rw [lookupP_append_some _ hv]
      show some v.estado = some Estado.READY
      rw [hve]
    · have hkn : k = s.next_pid := by simpa using h3
      rw [hkn]
      show estadoOf (s.procs ++ [(s.next_pid, createdPCB s b np tr)])
        s.next_pid = some Estado.READY
      unfold estadoOf
      rw [lookupP_append_none _ hlkn, lookupP_cons, if_pos rfl]
      rfl
  · intro k hk
    have hk2 : k ∈ s.running_pid.toList := hk
    obtain ⟨hre, hnq⟩ := h.2.2.2.1 k hk2
    obtain ⟨v, hv, hve⟩ := estadoOf_some hre
    obtain ⟨hb1, hb2⟩ := invS_key_lt h hv
    refine ⟨?_, ?_⟩
    · show estadoOf (s.procs ++ [(s.next_pid, createdPCB s b np tr)]) k
        = some Estado.RUNNING
      unfold estadoOf
      rw [lookupP_append_some _ hv]
      show some v.estado = some Estado.RUNNING
      rw [hve]
    · intro hc
      rcases List.mem_append.mp hc with h3 | h3
      · exact hnq h3
      · have h4 : k = s.next_pid := by simpa using h3
        omega
  · show (s.ready_q ++ [s.next_pid]).Nodup
    refine List.nodup_append.mpr ⟨h.2.2.2.2.1, List.nodup_singleton _, ?_⟩
    intro a ha hb2
    have ha2 : a = s.next_pid := by simpa using hb2
    have hre := h.2.2.1 a ha
    obtain ⟨v, hv, hve⟩ := estadoOf_some hre
    obtain ⟨hb1, hb3⟩ := invS_key_lt h hv
    omega
  · show 1 ≤ s.next_pid + 1
    have h6 := h.2.2.2.2.2
    omega

theorem shelved_set_policy {s : Scheduler} {k : Int} (hs : Shelved k s)
    (pol : CPUPolicy) (qq : Int) :
    Shelved k (s.set_policy pol qq) ∧
    lookupP (s.set_policy pol qq).procs k = lookupP s.procs k := by
  obtain ⟨hrk, hqk, w, hw, hwe⟩ := hs
  refine ⟨⟨?_, hqk, w, hw, hwe⟩, rfl⟩
  exact fun hc =>
    Option.noConfusion (show (none : Option Int) = some k from hc)

theorem shelved_kill {s : Scheduler} {k q0 : Int} (hs : Shelved k s)
    (hne : q0 ≠ k) :
    Shelved k (s.kill_process q0).2 ∧
    lookupP (s.kill_process q0).2.procs k = lookupP s.procs k := by
  obtain ⟨hrk, hqk, w, hw, hwe⟩ := hs
  have hkq : k ≠ q0 := fun he => hne he.symm
  unfold Scheduler.kill_process
  cases hlk : lookupP s.procs q0 with
  | none => exact ⟨⟨hrk, hqk, w, hw, hwe⟩, rfl⟩
  | some u =>
      dsimp only
      by_cases hrq : s.running_pid = some q0
      · rw [if_pos hrq]
        refine ⟨⟨?_, ?_, w, ?_, hwe⟩, ?_⟩
        · exact fun hc =>
            Option.noConfusion (show (none : Option Int) = some k from hc)
        · exact fun hc => hqk (mem_eraseAllInt.mp hc).1
        · show lookupP (updProc s.procs q0 (toTerminated s.current_tick)) k
            = some w
          rw [lookupP_updProc, if_neg hkq, hw]
        · show lookupP (updProc s.procs q0 (toTerminated s.current_tick)) k
            = lookupP s.procs k
          rw [lookupP_updProc, if_neg hkq]
      · rw [if_neg hrq]
        refine ⟨⟨hrk, ?_, w, ?_, hwe⟩, ?_⟩
        · exact fun hc => hqk (mem_eraseAllInt.mp hc).1
        · show lookupP (updProc s.procs q0 (toTerminated s.current_tick)) k
            = some w
          rw [lookupP_updProc, if_neg hkq, hw]
        · show lookupP (updProc s.procs q0 (toTerminated s.current_tick)) k
            = lookupP s.procs k
          rw [lookupP_updProc, if_neg hkq]

theorem shelved_newCmd {s : Scheduler} {k : Int} (h : InvS s)
    (hs : Shelved k s) (b np : Int) (tr : List Int) :
    Shelved k (s.newCmd b np tr).2 ∧
    lookupP (s.newCmd b np tr).2.procs k = lookupP s.procs k := by
  obtain ⟨hrk, hqk, w, hw, hwe⟩ := hs
  obtain ⟨hk1, hk2⟩ := invS_key_lt h hw
  rw [newCmd_snd_eq h]
  have hlap : lookupP (s.procs ++ [(s.next_pid, createdPCB s b np tr)]) k
      = some w := lookupP_append_some _ hw
  refine ⟨⟨hrk, ?_, w, hlap, hwe⟩, ?_⟩
  · intro hc
    rcases List.mem_append.mp hc with h3 | h3
    · exact hqk h3
    · have h4 : k = s.next_pid := by simpa using h3
      omega
  · show lookupP (s.procs ++ [(s.next_pid, createdPCB s b np tr)]) k
      = lookupP s.procs k
    rw [hlap, hw]

theorem shelved_tick {s : Scheduler} {k : Int} (h : InvS s)
    (hs : Shelved k s) :
    Shelved k (s.tick).2 ∧
    lookupP (s.tick).2.procs k = lookupP s.procs k ∧
    (s.tick).1 ≠ some k := by
  obtain ⟨hrk, hqk, q, hq, hqe⟩ := hs
  have hd := dispatchStage_invs h
  have hkready : estadoOf s.procs k ≠ some Estado.READY := by
    intro hc
    obtain ⟨v, hv, hve⟩ := estadoOf_some hc
    rw [hq] at hv
    exact hqe ((Option.some.inj hv) ▸ hve)
  have hd4 : lookupP s.dispatchStage.procs k = lookupP s.procs k :=
    hd.2.2.2 k hkready
  have hdrun : s.dispatchStage.running_pid ≠ some k := by
    intro hc
    rcases hd.2.1 k hc with hc2 | hc2
    · exact hrk hc2
    · exact hkready hc2
  have hdready : k ∉ s.dispatchStage.ready_q :=
    fun hc => hqk (hd.2.2.1 k hc)
  have hkready2 : estadoOf s.dispatchStage.procs k
      ≠ some Estado.READY := by
    rw [estadoOf_congr hd4]
    exact hkready
  have hw4 : lookupP s.dispatchStage.waitStage.procs k
      = lookupP s.dispatchStage.procs k :=
    (waitStage_invs hd.1).2 k hkready2
  have hwrun : s.dispatchStage.waitStage.running_pid ≠ some k := hdrun
  have hcf := chargeStage_frame hwrun
  refine ⟨⟨?_, ?_, q, ?_, hqe⟩, ?_, ?_⟩
  · exact hcf.2.1
  · intro hc
    exact hdready (hcf.2.2 hc)
  · show lookupP (s.dispatchStage.waitStage.chargeStage).2.procs k = some q
    rw [hcf.1, hw4, hd4, hq]
  · show lookupP (s.dispatchStage.waitStage.chargeStage).2.procs k
      = lookupP s.procs k
    rw [hcf.1, hw4, hd4]
  · rw [tick_fst_running]
    exact hdrun

theorem stepNK_preserve {p : Int} {s t : Scheduler} (h : InvS s)
    (hs : Shelved p s) (hstep : StepNK p s t) :
    InvS t ∧ Shelved p t ∧ lookupP t.procs p = lookupP s.procs p := by
  cases hstep with
  | new b np tr =>
      obtain ⟨h1, h2⟩ := shelved_newCmd h hs b np tr
      exact ⟨InvS_newCmd h b np tr, h1, h2⟩
  | kill q hne =>
      obtain ⟨h1, h2⟩ := shelved_kill hs hne
      exact ⟨InvS_kill h q, h1, h2⟩
  | policy pol qq =>
      obtain ⟨h1, h2⟩ := shelved_set_policy hs pol qq
      exact ⟨InvS_set_policy h pol qq, h1, h2⟩
  | tick =>
      obtain ⟨h1, h2, h3⟩ := shelved_tick h hs
      exact ⟨InvS_tick h, h1, h2⟩

theorem stepsNK_preserve {p : Int} {s t : Scheduler} (h : InvS s)
    (hs : Shelved p s) (hsteps : StepsNK p s t) :
    InvS t ∧ Shelved p t ∧ lookupP t.procs p = lookupP s.procs p := by
  induction hsteps with
  | refl => exact ⟨h, hs, rfl⟩
  | tail t2 u2 hst hstep ih =>
      obtain ⟨ih1, ih2, ih3⟩ := ih
      obtain ⟨j1, j2, j3⟩ := stepNK_preserve ih1 ih2 hstep
      exact ⟨j1, j2, j3.trans ih3⟩

/-- Claim C10: if Scheduler.set_policy is called while some process
occupies the CPU, that process stays in RUNNING state but is dropped
from the running slot without being re-queued; afterwards, under any
sequence of console operations that never kills it, its table record
never changes, it is never in the ready queue, and tick never returns
its pid — only an explicit kill can still affect it. -/
theorem C10_set_policy_strands (s : Scheduler) (p : Int) (pol : CPUPolicy)
    (qq : Int) (hinv : InvS s) (hrun : s.running_pid = some p) :
    (estadoOf (s.set_policy pol qq).procs p = some Estado.RUNNING ∧
      (s.set_policy pol qq).running_pid = none ∧
      p ∉ (s.set_policy pol qq).ready_q) ∧
    (∀ t, StepsNK p (s.set_policy pol qq) t →
      lookupP t.procs p = lookupP s.procs p ∧
      t.running_pid ≠ some p ∧
      p ∉ t.ready_q ∧
      (Scheduler.tick t).1 ≠ some p) := by
  obtain ⟨hes, hnq⟩ := invS_running hinv hrun
  have hinv2 : InvS (s.set_policy pol qq) := InvS_set_policy hinv pol qq
  obtain ⟨v, hv, hve⟩ := estadoOf_some hes
  have hshel : Shelved p (s.set_policy pol qq) := by
    refine ⟨?_, hnq, v, hv, ?_⟩
    · exact fun hc =>
        Option.noConfusion (show (none : Option Int) = some p from hc)
    · rw [hve]
      decide
  refine ⟨⟨hes, rfl, hnq⟩, ?_⟩
  intro t hsteps
  obtain ⟨j1, j2, j3⟩ := stepsNK_preserve hinv2 hshel hsteps
  obtain ⟨jrk, jq, w, hw, hwe⟩ := j2
  refine ⟨j3, jrk, jq, ?_⟩
  exact (shelved_tick j1 ⟨jrk, jq, w, hw, hwe⟩).2.2

theorem C10_witness :
    (InvS C10s ∧ C10s.running_pid = some 1) ∧
    ((estadoOf (C10s.set_policy CPUPolicy.SJF_NONPREEMPTIVE 3).procs 1
        = some Estado.RUNNING ∧
      (C10s.set_policy CPUPolicy.SJF_NONPREEMPTIVE 3).running_pid = none ∧
      1 ∉ (C10s.set_policy CPUPolicy.SJF_NONPREEMPTIVE 3).ready_q) ∧
     (∀ t, StepsNK 1 (C10s.set_policy CPUPolicy.SJF_NONPREEMPTIVE 3) t →
        lookupP t.procs 1 = lookupP C10s.procs 1 ∧
        t.running_pid ≠ some 1 ∧
        1 ∉ t.ready_q ∧
        (Scheduler.tick t).1 ≠ some 1)) :=
  ⟨⟨by decide, by decide⟩,
    C10_set_policy_strands C10s 1 CPUPolicy.SJF_NONPREEMPTIVE 3
      (by decide) (by decide)⟩

theorem bumpVal_fin (p : PCB) : (bumpVal p).fin_tick = p.fin_tick := by
  unfold bumpVal
  split <;> rfl

theorem bumpVal_rafaga (p : PCB) :
    (bumpVal p).rafaga_restante = p.rafaga_restante := by
  unfold bumpVal
  split <;> rfl

theorem stage12_entry {s : Scheduler} {k : Int} {q : PCB}
    (hq : lookupP s.procs k = some q) :
    ∃ v, lookupP s.dispatchStage.waitStage.procs k = some v ∧
      v.fin_tick = q.fin_tick ∧
      v.rafaga_restante = q.rafaga_restante := by
  have hmain : ∃ u, lookupP s.dispatchStage.procs k = some u ∧
      u.fin_tick = q.fin_tick ∧ u.rafaga_restante = q.rafaga_restante := by
    rcases dispatchStage_procs_cases s with hdp | ⟨pid, hrun, hdp⟩
    · refine ⟨q, ?_, rfl, rfl⟩
      rw [hdp]
      exact hq
    · rw [hdp]
      by_cases hkp : k = pid
      · have hq2 : lookupP s.procs pid = some q := by
          rw [← hkp]
          exact hq
        refine ⟨toRunning s.current_tick q, ?_, rfl, rfl⟩
        rw [lookupP_updProc, if_pos hkp, ensureP_of_some hq2, hq2]
        rfl
      · refine ⟨q, ?_, rfl, rfl⟩
        rw [lookupP_updProc, if_neg hkp, lookupP_ensureP_ne hkp, hq]
  obtain ⟨u, hu, huf, hur⟩ := hmain
  refine ⟨bumpVal u, ?_, ?_, ?_⟩
  · rw [waitStage_lookup, hu]
    rfl
  · rw [bumpVal_fin]
    exact huf
  · rw [bumpVal_rafaga]
    exact hur

theorem charge_entry {t : Scheduler} {k : Int} {v : PCB}
    (hv : lookupP t.procs k = some v) :
    ∃ q2, lookupP (t.chargeStage).2.procs k = some q2 ∧
      ((q2.fin_tick = v.fin_tick ∧
        ((t.chargeStage).1 = some k → ¬ q2.rafaga_restante ≤ 0)) ∨
       (q2.estado = Estado.TERMINATED ∧
        q2.fin_tick = t.current_tick + 1 ∧
        q2.rafaga_restante = v.rafaga_restante - 1 ∧
        q2.rafaga_restante ≤ 0 ∧
        (t.chargeStage).1 = some k)) := by
  rcases chargeStage_cases t with ⟨hr2, he⟩ | ⟨pid, w, hr2, hw, hc⟩
  · rw [he]
    refine ⟨v, hv, Or.inl ⟨rfl, ?_⟩⟩
    intro hf
    exact absurd (show (none : Option Int) = some k from hf)
      (fun hx => Option.noConfusion hx)
  · by_cases hkp : k = pid
    · have hv2 : lookupP t.procs pid = some v := by
        rw [← hkp]
        exact hv
      have hwv : w = v := by
        rw [ensureP_of_some hv2] at hw
        exact Option.some.inj (hw.symm.trans hv2)
      rcases hc with ⟨hb, he⟩ | ⟨hb, hp, hs3, he⟩ | ⟨hb, hp, hs3, he⟩ |
        ⟨hb, hp, he⟩
      · rw [he]
        rw [hwv] at hb
        refine ⟨toTerminated (t.current_tick + 1) (decBurst v), ?_,
          Or.inr ⟨rfl, rfl, rfl, hb, ?_⟩⟩
        · show lookupP (updProc (updProc (ensureP t.procs pid) pid decBurst)
            pid (toTerminated (t.current_tick + 1))) k = _
          rw [ensureP_of_some hv2, lookupP_updProc, if_pos hkp,
            lookupP_updProc, if_pos rfl, hv2]
          rfl
        · show some pid = some k
          rw [hkp]
      · rw [he]
        rw [hwv] at hb
        refine ⟨toReadyE (decBurst v), ?_, Or.inl ⟨rfl, fun _ => hb⟩⟩
        show lookupP (updProc (updProc (ensureP t.procs pid) pid decBurst)
          pid toReadyE) k = _
        rw [ensureP_of_some hv2, lookupP_updProc, if_pos hkp,
          lookupP_updProc, if_pos rfl, hv2]
        rfl
      · rw [he]
        rw [hwv] at hb
        refine ⟨decBurst v, ?_, Or.inl ⟨rfl, fun _ => hb⟩⟩
        show lookupP (updProc (ensureP t.procs pid) pid decBurst) k = _
        rw [ensureP_of_some hv2, lookupP_updProc, if_pos hkp, hv2]
        rfl
      · rw [he]
        rw [hwv] at hb
        refine ⟨decBurst v, ?_, Or.inl ⟨rfl, fun _ => hb⟩⟩
        show lookupP (updProc (ensureP t.procs pid) pid decBurst) k = _
        rw [ensureP_of_some hv2, lookupP_updProc, if_pos hkp, hv2]
        rfl
    · have hrk : t.running_pid ≠ some k := by
        rw [hr2]
        exact fun hc2 => hkp (Option.some.inj hc2).symm
      have hcf := chargeStage_frame hrk
      refine ⟨v, ?_, Or.inl ⟨rfl, ?_⟩⟩
      · rw [hcf.1]
        exact hv
      · intro hf
        rw [chargeStage_fst] at hf
        exact absurd hf hrk

theorem tick_entry {s : Scheduler} {k : Int} {q : PCB}
    (hq : lookupP s.procs k = some q) :
    ∃ q2, lookupP (s.tick).2.procs k = some q2 ∧
      ((q2.fin_tick = q.fin_tick ∧
        ((s.tick).1 = some k → ¬ q2.rafaga_restante ≤ 0)) ∨
       (q2.estado = Estado.TERMINATED ∧
        q2.fin_tick = s.current_tick + 1 ∧
        q2.rafaga_restante = q.rafaga_restante - 1 ∧
        q2.rafaga_restante ≤ 0 ∧
        (s.tick).1 = some k)) := by
  obtain ⟨v, hv, hvf, hvr⟩ := stage12_entry hq
  obtain ⟨q2, hq2, hcase⟩ := charge_entry hv
  have hct : s.dispatchStage.waitStage.current_tick = s.current_tick :=
    (dispatchStage_fields s).1
  refine ⟨q2, hq2, ?_⟩
  rcases hcase with ⟨hf, himp⟩ | ⟨h1, h2, h3, h4, h5⟩
  · exact Or.inl ⟨hf.trans hvf, himp⟩
  · refine Or.inr ⟨h1, ?_, ?_, h4, h5⟩
    · rw [h2, hct]
    · rw [h3, hvr]

theorem terminated_shelved {s : Scheduler} {k : Int} {q : PCB} (h : InvS s)
    (hq : lookupP s.procs k = some q)
    (hqe : q.estado = Estado.TERMINATED) : Shelved k s := by
  have hne : estadoOf s.procs k = some Estado.TERMINATED := by
    unfold estadoOf
    rw [hq]
    show some q.estado = _
    rw [hqe]
  refine ⟨?_, ?_, q, hq, ?_⟩
  · intro hc
    have h2 := (invS_running h hc).1
    rw [hne] at h2
    exact Estado.noConfusion (Option.some.inj h2)
  · intro hc
    have h2 := h.2.2.1 k hc
    rw [hne] at h2
    exact Estado.noConfusion (Option.some.inj h2)
  · rw [hqe]
    decide

theorem kill_restamps {s : Scheduler} {k : Int} {q : PCB}
    (hq : lookupP s.procs k = some q) :
    lookupP (s.kill_process k).2.procs k
      = some (toTerminated s.current_tick q) := by
  unfold Scheduler.kill_process
  rw [hq]
  dsimp only
  by_cases hrq : s.running_pid = some k
  · rw [if_pos hrq]
    show lookupP (updProc s.procs k (toTerminated s.current_tick)) k = _
    rw [lookupP_updProc, if_pos rfl, hq]
    rfl
  · rw [if_neg hrq]
    show lookupP (updProc s.procs k (toTerminated s.current_tick)) k = _
    rw [lookupP_updProc, if_pos rfl, hq]
    rfl

/-- Claim C1 as stated fails: a second kill of an already-TERMINATED
pid re-stamps its fin_tick with the current tick, so the record of a
TERMINATED process is mutated again and finish-tick is set twice (first
to 1 at termination, then to 2 by the kill). -/
theorem C1_counterexample :
    estadoOf C1s1.procs 1 = some Estado.TERMINATED ∧
    (lookupP C1s1.procs 1).map PCB.fin_tick = some 1 ∧
    (lookupP (C1s1.kill_process 1).2.procs 1).map PCB.fin_tick = some 2 ∧
    (C1s1.kill_process 1).2.procs ≠ C1s1.procs := by
  decide

/-- Claim C1 (amended): on a reachable scheduler state, a TERMINATED
process entry is left untouched by tick, by a "new" command and by
set_policy; an explicit kill of an existing pid always overwrites its
entry to TERMINATED with fin_tick := current_tick, even when it is
already TERMINATED; and during a tick, fin_tick changes exactly for the
charged process whose decremented remaining-burst has reached 0 or
below, in which case it is stamped current_tick + 1 and the process is
TERMINATED. -/
theorem C1_amended (s : Scheduler) (hinv : InvS s) :
    (∀ k q, lookupP s.procs k = some q → q.estado = Estado.TERMINATED →
      lookupP (s.tick).2.procs k = some q ∧
      (∀ (b np : Int) (tr : List Int),
        lookupP (s.newCmd b np tr).2.procs k = some q) ∧
      (∀ pol qq, lookupP (s.set_policy pol qq).procs k = some q)) ∧
    (∀ k q, lookupP s.procs k = some q →
      lookupP (s.kill_process k).2.procs k
        = some (toTerminated s.current_tick q)) ∧
    (∀ k q q2, lookupP s.procs k = some q →
      lookupP (s.tick).2.procs k = some q2 →
      q2.fin_tick ≠ q.fin_tick →
      q2.estado = Estado.TERMINATED ∧
      q2.fin_tick = s.current_tick + 1 ∧
      q2.rafaga_restante = q.rafaga_restante - 1 ∧
      q2.rafaga_restante ≤ 0 ∧
      (s.tick).1 = some k) ∧
    (∀ k q q2, lookupP s.procs k = some q →
      (s.tick).1 = some k →
      lookupP (s.tick).2.procs k = some q2 →
      q2.rafaga_restante ≤ 0 →
      q2.fin_tick = s.current_tick + 1 ∧
      q2.estado = Estado.TERMINATED) := by
  refine ⟨?_, ?_, ?_, ?_⟩
  · intro k q hq hqe
    have hshel := terminated_shelved hinv hq hqe
    refine ⟨?_, ?_, ?_⟩
    · rw [(shelved_tick hinv hshel).2.1, hq]
    · intro b np tr
      rw [(shelved_newCmd hinv hshel b np tr).2, hq]
    · intro pol qq
      exact hq
  · intro k q hq
    exact kill_restamps hq
  · intro k q q2 hq hq2 hne
    obtain ⟨q3, hq3, hcase⟩ := tick_entry hq
    have hq23 : q3 = q2 := Option.some.inj (hq3.symm.trans hq2)
    rw [hq23] at hcase
    rcases hcase with ⟨hf, _⟩ | hgood
    · exact absurd hf hne
    · exact hgood
  · intro k q q2 hq hfst hq2 hr0
    obtain ⟨q3, hq3, hcase⟩ := tick_entry hq
    have hq23 : q3 = q2 := Option.some.inj (hq3.symm.trans hq2)
    rw [hq23] at hcase
    rcases hcase with ⟨_, himp⟩ | ⟨h1, h2, _, _, _⟩
    · exact absurd hr0 (himp hfst)
    · exact ⟨h2, h1⟩

theorem C1_witness :
    InvS C1s0 ∧
    (lookupP C1s0.procs 1 = some C1wq ∧
     lookupP (C1s0.kill_process 1).2.procs 1
       = some (toTerminated C1s0.current_tick C1wq)) :=
  ⟨by decide, by decide,
    (C1_amended C1s0 (by decide)).2.1 1 C1wq (by decide)⟩

end OSim
